import Mathlib

/-!
# Bonsai driver: initial-condition readers and `main`

A shallow embedding of `runtime/src/main.cpp`:

* `read_tipsy_file_parallel` and `read_dumbp_file_parallel`, the two readers
  that run on rank 0, cut the input into batches and hand every full batch to
  `ICSend`;
* the command line handling of `main` and the argument list it passes to the
  `octree` constructor;
* the sequence of engine calls `main` makes, as a trace of events.

Conventions.  `int` values are `Int` (or `Nat` for counters that only count up
from zero), `uint` values are `Nat` reduced modulo `2^32`, `std::vector` is
`List`.  The payload type of a `float` inside a particle is a parameter `F`:
the readers only move these values.  The `float` settings of `main` are
rationals.  The engine (`octree`) is not part of the file; every call into it
is recorded as an `Event`, and the values it returns to `main` (rank, number
of processes, received particles, results of the exchange) are inputs.
Printing, the log file, the profiler environment variable, the mass check and
the MPI calls made directly by `main` (`MPI_Reduce`, `MPI_Finalize`) are left
out.
-/

namespace Bonsai

/-! ## Data model -/

/-- Vector type `real4`: three coordinates and a fourth component `w` (the mass
in a position, the softening in a velocity). -/
structure real4 (F : Type) where
  x : F
  y : F
  z : F
  w : F
deriving DecidableEq, Repr

/-- Conversion of an `int` to `uint` (32 bit). -/
def toUInt32 (z : Int) : Nat := (z % 4294967296).toNat

/-- Conversion of a `size_t` to `int` (32 bit, two's complement). -/
def toInt32 (n : Nat) : Int :=
  if n % 4294967296 < 2147483648 then ((n % 4294967296 : Nat) : Int)
  else ((n % 4294967296 : Nat) : Int) - 4294967296

/-- Statement `perProc -= 1` on a `uint`. -/
def uintDecr (u : Nat) : Nat := (u + 4294967296 - 1) % 4294967296

/-- Lines 88/185 and 92/189: `uint perProc = NTotal / procs; perProc -= 1;`
The division is the truncating division of two `int`s. -/
def perProcOf (NTotal : Int) (procs : Nat) : Nat :=
  uintDecr (toUInt32 (Int.tdiv NTotal (procs : Int)))

/-- One call
`tree->ICSend(procCntr, &bodyPositions[0], &bodyVelocities[0], &bodiesIDs[0], (int)bodyPositions.size())`. -/
structure ICSendCall (F : Type) where
  destination : Nat
  bodyPositions : List (real4 F)
  bodyVelocities : List (real4 F)
  bodiesIDs : List Int
  count : Int
deriving DecidableEq, Repr

/-- The mutable state of a reader's loop: the three output vectors, the two
counters and the calls to `ICSend` made so far, oldest first. -/
structure ReadState (F : Type) where
  bodyPositions : List (real4 F)
  bodyVelocities : List (real4 F)
  bodiesIDs : List Int
  particleCount : Nat
  procCntr : Nat
  sent : List (ICSendCall F)
deriving DecidableEq, Repr

/-- State at loop entry: empty vectors, `particleCount = 0`, `procCntr = 1`. -/
def ReadState.start (F : Type) : ReadState F :=
  { bodyPositions := [], bodyVelocities := [], bodiesIDs := [],
    particleCount := 0, procCntr := 1, sent := [] }

/-- Tail of the loop body, the same in both readers (lines 109-129 and
227-242): the three `push_back`s, `particleCount++`, and the send of the
buffered batch once it holds more than `perProc` particles while
`procCntr != procs`. -/
def pushAndSend {F : Type} (perProc procs : Nat) (st : ReadState F)
    (positions velocity : real4 F) (idummy : Int) : ReadState F :=
  let pos := st.bodyPositions ++ [positions]
  let vel := st.bodyVelocities ++ [velocity]
  let ids := st.bodiesIDs ++ [idummy]
  if pos.length > perProc ∧ st.procCntr ≠ procs then
    { bodyPositions := [], bodyVelocities := [], bodiesIDs := [],
      particleCount := st.particleCount + 1,
      procCntr := st.procCntr + 1,
      sent := st.sent ++ [{ destination := st.procCntr, bodyPositions := pos,
                            bodyVelocities := vel, bodiesIDs := ids,
                            count := toInt32 pos.length }] }
  else
    { bodyPositions := pos, bodyVelocities := vel, bodiesIDs := ids,
      particleCount := st.particleCount + 1,
      procCntr := st.procCntr, sent := st.sent }

/-- What a reader hands back to `main` through its reference parameters. -/
structure Bodies (F : Type) where
  bodyPositions : List (real4 F)
  bodyVelocities : List (real4 F)
  bodyIDs : List Int
  NTotal : Int
  NFirst : Int
  NSecond : Int
  NThird : Int
deriving DecidableEq, Repr

/-- Outcome of a reader: the `ICSend` calls it made, and the values it returned
with, or `none` when the process ended inside the reader. -/
structure ReadOutcome (F : Type) where
  sent : List (ICSendCall F)
  ret : Option (Bodies F)
deriving DecidableEq, Repr

/-! ## The tipsy reader -/

/-- Header `dump` of a tipsy file, the fields the reader uses. -/
structure dump where
  nbodies : Int
  ndark : Int
  nstar : Int
  nsph : Int
deriving DecidableEq, Repr

/-- A particle record of a tipsy file (`dark_particle` or `star_particle`), the
fields the reader uses.  `phi` holds the particle id; the field is the value
of `(int)phi`, which is what the reader stores in `idummy`. -/
structure tipsy_particle (F : Type) where
  mass : F
  pos0 : F
  pos1 : F
  pos2 : F
  vel0 : F
  vel1 : F
  vel2 : F
  eps : F
  phi : Int
deriving DecidableEq, Repr

/-- A tipsy file that could be opened: header and the records after it. -/
structure TipsyFile (F : Type) where
  h : dump
  records : List (tipsy_particle F)
deriving DecidableEq, Repr

/-- Lines 204-207 / 217-220: `positions` of a record. -/
def tipsy_particle.positions {F : Type} (p : tipsy_particle F) : real4 F :=
  { x := p.pos0, y := p.pos1, z := p.pos2, w := p.mass }

/-- Lines 203, 208-210 / 216, 221-223: `velocity` of a record. -/
def tipsy_particle.velocity {F : Type} (p : tipsy_particle F) : real4 F :=
  { x := p.vel0, y := p.vel1, z := p.vel2, w := p.eps }

/-- `inputFile.read` of one record into a variable: at the end of the file
nothing is read and the variable keeps its value. -/
def readRecord {α : Type} (stream : List α) (var : α) : α :=
  match stream with
  | [] => var
  | r :: _ => r

/-- Loop `for(int i=0; i < NTotal; i++)` of lines 198-243.  The first argument
is the number of iterations left, `i` the loop counter, `stream` the unread
part of the file, `d` and `s` the two record variables. -/
def read_tipsy_loop {F : Type} (NFirst : Int) (perProc procs : Nat) :
    Nat → Nat → List (tipsy_particle F) → tipsy_particle F → tipsy_particle F →
    ReadState F → ReadState F
  | 0, _, _, _, _, st => st
  | n + 1, i, stream, d, s, st =>
    if (i : Int) < NFirst then
      let d1 := readRecord stream d
      read_tipsy_loop NFirst perProc procs n (i + 1) stream.tail d1 s
        (pushAndSend perProc procs st d1.positions d1.velocity d1.phi)
    else
      let s1 := readRecord stream s
      read_tipsy_loop NFirst perProc procs n (i + 1) stream.tail d s1
        (pushAndSend perProc procs st s1.positions s1.velocity s1.phi)

/-- Function `read_tipsy_file_parallel` (lines 142-252).  `file` is `none` when
the file cannot be opened (`exit(0)` at line 166).  `d0` and `s0` are the
contents of the record variables before the first read. -/
def read_tipsy_file_parallel {F : Type} (file : Option (TipsyFile F)) (procs : Nat)
    (d0 s0 : tipsy_particle F) : ReadOutcome F :=
  match file with
  | none => { sent := [], ret := none }
  | some f =>
    let NTotal := f.h.nbodies
    let perProc := perProcOf NTotal procs
    let st := read_tipsy_loop f.h.ndark perProc procs NTotal.toNat 0 f.records d0 s0
                (ReadState.start F)
    { sent := st.sent,
      ret := some { bodyPositions := st.bodyPositions,
                    bodyVelocities := st.bodyVelocities,
                    bodyIDs := st.bodiesIDs,
                    NTotal := (st.particleCount : Int),
                    NFirst := f.h.ndark, NSecond := f.h.nstar, NThird := f.h.nsph } }

/-! ## The dumbp reader -/

/-- One line of a dumbp file: `ID mass x y z vx vy vz`, followed by the
softening when the build has `INDSOFT`. -/
structure dumbp_line (F : Type) where
  id : Int
  mass : F
  x : F
  y : F
  z : F
  vx : F
  vy : F
  vz : F
  soft : F
deriving DecidableEq, Repr

/-- A dumbp file that could be opened.  `NTotal` is the particle count the
reader starts from: `(int)(1 / mass)` of the first line (line 79), or the first
header number under `INDSOFT` (line 82), where the header also gives the three
class counts.  The text ends with a line break, so the end of the file is only
seen by the read that follows the last line. -/
structure DumbpFile (F : Type) where
  NTotal : Int
  NFirst : Int
  NSecond : Int
  NThird : Int
  lines : List (dumbp_line F)
deriving DecidableEq, Repr

/-- The variables `idummy`, `positions`, `velocity` of the dumbp reader. -/
structure DumbpVars (F : Type) where
  idummy : Int
  positions : real4 F
  velocity : real4 F
deriving DecidableEq, Repr

/-- Lines 99-101 and 106: the extraction of one line into the variables.
`velocity.w` is read only under `INDSOFT`. -/
def DumbpVars.extract {F : Type} (INDSOFT : Bool) (v : DumbpVars F) (l : dumbp_line F) :
    DumbpVars F :=
  { idummy := l.id,
    positions := { x := l.x, y := l.y, z := l.z, w := l.mass },
    velocity := { x := l.vx, y := l.vy, z := l.vz,
                  w := if INDSOFT then l.soft else v.velocity.w } }

/-- Lines 103-129, the loop body after the extraction: `velocity.w = sqrt(eps2)`
and `idummy = particleCount` unless `INDSOFT`, then the pushes and the send.
Returns the variables together with the state. -/
def dumbp_body {F : Type} (INDSOFT : Bool) (sqrt_eps2 : F) (perProc procs : Nat)
    (v : DumbpVars F) (st : ReadState F) : DumbpVars F × ReadState F :=
  let velocity : real4 F :=
    if INDSOFT then v.velocity else { v.velocity with w := sqrt_eps2 }
  let idummy : Int := if INDSOFT then v.idummy else (st.particleCount : Int)
  ({ idummy := idummy, positions := v.positions, velocity := velocity },
   pushAndSend perProc procs st v.positions velocity idummy)

/-- Loop `while(!inputFile.eof())` of lines 97-130 over the unread lines.  When
no line is left the extraction fails, the variables keep their values, the
body still runs, and the loop ends because the end of the file was seen. -/
def read_dumbp_loop {F : Type} (INDSOFT : Bool) (sqrt_eps2 : F) (perProc procs : Nat) :
    List (dumbp_line F) → DumbpVars F → ReadState F → ReadState F
  | [], v, st => (dumbp_body INDSOFT sqrt_eps2 perProc procs v st).2
  | l :: rest, v, st =>
    let r := dumbp_body INDSOFT sqrt_eps2 perProc procs (v.extract INDSOFT l) st
    read_dumbp_loop INDSOFT sqrt_eps2 perProc procs rest r.1 r.2

/-- Function `read_dumbp_file_parallel` (lines 36-139).  `file` is `none` when
the file cannot be opened (`exit(0)` at line 68).  `v0` holds the variables at
loop entry, `sqrt_eps2` the value of `sqrt(eps2)`; `N0`, `NFirst0`, `NSecond0`,
`NThird0` are the values the caller's count variables have at the call.
Line 135 is `bodyPositions.resize(bodyPositions.size()-1)`: on an empty vector
the new size is `SIZE_MAX`, the resize throws, and the process ends (`ret` is
`none`).  Only `bodyPositions` is resized. -/
def read_dumbp_file_parallel {F : Type} (INDSOFT : Bool) (sqrt_eps2 : F)
    (file : Option (DumbpFile F)) (procs : Nat) (v0 : DumbpVars F)
    (NFirst0 NSecond0 NThird0 : Int) : ReadOutcome F :=
  match file with
  | none => { sent := [], ret := none }
  | some f =>
    let perProc := perProcOf f.NTotal procs
    let st := read_dumbp_loop INDSOFT sqrt_eps2 perProc procs f.lines v0 (ReadState.start F)
    if st.bodyPositions.length = 0 then { sent := st.sent, ret := none }
    else
      { sent := st.sent,
        ret := some { bodyPositions := st.bodyPositions.take (st.bodyPositions.length - 1),
                      bodyVelocities := st.bodyVelocities,
                      bodyIDs := st.bodiesIDs,
                      NTotal := (st.particleCount : Int) - 1,
                      NFirst := if INDSOFT then f.NFirst else NFirst0,
                      NSecond := if INDSOFT then f.NSecond else NSecond0,
                      NThird := if INDSOFT then f.NThird else NThird0 } }

/-! ## Command line of `main` -/

/-- The local variables of `main` that hold the settings (lines 267-280).
A `float` is modelled by the rational it stands for. -/
structure Settings where
  eps : ℚ
  theta : ℚ
  timeStep : ℚ
  tEnd : Int
  devID : Int
  fileName : String
  logFileName : String
  snapshotFile : String
  snapshotIter : Int
  killDistance : ℚ
  remoDistance : ℚ
  snapShotAdd : Int
  rebuild_tree_rate : Int

/-- Lines 267-344 of `main`.  `argv` holds the `argc` command line words,
program name first; `atoi` and `atof` are the C library conversions (`atof`
followed by the cast to `float`).  With `argc <= 1` the usage text is printed
and the process exits (`none`). -/
def parseArgs (atoi : String → Int) (atof : String → ℚ) (argv : List String) :
    Option Settings :=
  if argv.length ≤ 1 then none
  else some
    { eps := if argv.length > 6 then atof (argv.getD 6 "") else 5 / 100,
      theta := if argv.length > 7 then atof (argv.getD 7 "") else 75 / 100,
      timeStep := if argv.length > 4 then atof (argv.getD 4 "") else 1 / 16,
      tEnd := if argv.length > 5 then atoi (argv.getD 5 "") else 1000,
      devID := if argv.length > 3 then atoi (argv.getD 3 "") else 0,
      fileName := if argv.length > 1 then argv.getD 1 "" else "",
      logFileName := if argv.length > 2 then argv.getD 2 "" else "gpuLog.log",
      snapshotFile := if argv.length > 8 then argv.getD 8 "" else "snapshot_",
      snapshotIter := if argv.length > 9 then atoi (argv.getD 9 "") else -1,
      killDistance := if argv.length > 10 then atof (argv.getD 10 "") else -1,
      remoDistance := if argv.length > 11 then atof (argv.getD 11 "") else -1,
      snapShotAdd := if argv.length > 12 then atoi (argv.getD 12 "") else 0,
      rebuild_tree_rate := if argv.length > 13 then atoi (argv.getD 13 "") else 5 }

/-- The default for the tree rebuild interval that the usage text of `main`
prints (line 297: "Rebuild tree every # steps (2 is default)"). -/
def usage_rebuild_tree_rate : Int := 2

/-- The value of a `float` with its fractional part dropped (rounding toward
zero). -/
def truncate (r : ℚ) : Int := if 0 ≤ r then ⌊r⌋ else ⌈r⌉

/-- Cast `(int)` of a `float`: the fractional part is dropped.  The conversion
is defined only when the result is an `int` (32 bit); otherwise the behaviour
of the program is undefined (`none`). -/
def float_to_int (r : ℚ) : Option Int :=
  if -2147483648 ≤ truncate r ∧ truncate r ≤ 2147483647 then some (truncate r) else none

/-- The arguments after `argv` of the constructor call of line 359. -/
structure OctreeArgs where
  devID : Int
  theta : ℚ
  eps : ℚ
  snapshotFile : String
  snapshotIter : Int
  timeStep : ℚ
  tEnd : Int
  killDistance : ℚ
  remoDistance : Int
  snapShotAdd : Int
  rebuild_tree_rate : Int

/-- Line 359: `new octree(argv, devID, theta, eps, snapshotFile, snapshotIter,
timeStep, tEnd, killDistance, (int)remoDistance, snapShotAdd, rebuild_tree_rate)`.
The result is `none` when the cast of `remoDistance` is not defined. -/
def octreeArgs (s : Settings) : Option OctreeArgs :=
  match float_to_int s.remoDistance with
  | none => none
  | some remo =>
    some { devID := s.devID, theta := s.theta, eps := s.eps,
           snapshotFile := s.snapshotFile, snapshotIter := s.snapshotIter,
           timeStep := s.timeStep, tEnd := s.tEnd,
           killDistance := s.killDistance,
           remoDistance := remo,
           snapShotAdd := s.snapShotAdd, rebuild_tree_rate := s.rebuild_tree_rate }

/-! ## The engine calls of `main` -/

/-- The device buffers of `localTree` that `main` transfers. -/
inductive Buffer where
  | bodies_pos
  | bodies_vel
  | bodies_Ppos
  | bodies_Pvel
  | bodies_ids
  | bodies_acc0
  | bodies_acc1
  | bodies_time
deriving DecidableEq, Repr

/-- A call from `main` (or from a reader) into the engine, or a write of `main`
to the host side of the particle store.  Getters (`mpiGetRank`,
`mpiGetNProcs`, `get_time`) are left out. -/
inductive Event (F : Type) where
  | set_context
  | ICSend (call : ICSendCall F)
  | ICRecv (source : Nat)
  | setDataSetProperties (NTotal NFirst NSecond NThird : Int)
  | load_kernels
  | createORB
  | createDistribution (bodies : List (real4 F)) (n : Int)
  | mpiSync
  | setN (n : Int)
  | allocateParticleMemory
  | store (bodies_pos bodies_vel : List (real4 F)) (bodies_ids : List Int)
      (bodies_Ppos bodies_Pvel : List (real4 F))
  | h2d (b : Buffer)
  | exchange_particles_with_overflow_check (result : Bool)
  | copy (target source : Buffer)
  | sort_bodies
  | build
  | allocateTreePropMemory
  | compute_properties
  | iterate
deriving DecidableEq, Repr

/-- Which reader the build contains (`TIPSYOUTPUT` selects the tipsy reader),
with what that reader finds: the file (`none`: it cannot be opened) and the
contents of the reader's variables before the first read. -/
inductive InputSetup (F : Type) where
  | tipsy (file : Option (TipsyFile F)) (d0 s0 : tipsy_particle F)
  | dumbp (INDSOFT : Bool) (sqrt_eps2 : F) (file : Option (DumbpFile F)) (v0 : DumbpVars F)

/-- How far a run of `main` got. -/
inductive Status where
  /-- Function `main` returned after `iterate`. -/
  | finished
  /-- The process ended inside the reader. -/
  | ended_in_reader
  /-- The exchange loop of line 486 is still running. -/
  | exchanging
deriving DecidableEq, Repr

/-- A run of `main`: the events so far, oldest first, and its status. -/
structure Run (F : Type) where
  trace : List (Event F)
  status : Status
deriving DecidableEq, Repr

/-- Lines 392-404: rank 0 runs the reader, `NTotal`, `NFirst`, `NSecond`,
`NThird` being 0 at the call; every other rank calls `ICRecv(0, ...)`, which
fills the three vectors with `recv`. -/
def initial_bodies {F : Type} (setup : InputSetup F) (procId nProcs : Nat)
    (recvPos recvVel : List (real4 F)) (recvIds : List Int) :
    List (Event F) × Option (Bodies F) :=
  if procId = 0 then
    let r : ReadOutcome F :=
      match setup with
      | .tipsy file d0 s0 => read_tipsy_file_parallel file nProcs d0 s0
      | .dumbp INDSOFT sqrt_eps2 file v0 =>
        read_dumbp_file_parallel INDSOFT sqrt_eps2 file nProcs v0 0 0 0
    (r.sent.map Event.ICSend, r.ret)
  else
    ([Event.ICRecv 0],
     some { bodyPositions := recvPos, bodyVelocities := recvVel, bodyIDs := recvIds,
            NTotal := 0, NFirst := 0, NSecond := 0, NThird := 0 })

/-- Lines 409-478: data set properties, kernels, domain setup, and the load
of the vectors into the particle store.  The loop of lines 464-472 copies the
first `bodyPositions.size()` entries of each vector. -/
def setup_events {F : Type} (nProcs : Nat) (b : Bodies F) : List (Event F) :=
  [Event.setDataSetProperties b.NTotal b.NFirst b.NSecond b.NThird,
   Event.load_kernels,
   Event.createORB] ++
  (if nProcs > 1 then
    [Event.createDistribution b.bodyPositions (toInt32 b.bodyPositions.length)]
   else []) ++
  [Event.mpiSync,
   Event.setN (toInt32 b.bodyPositions.length),
   Event.allocateParticleMemory,
   Event.store b.bodyPositions (b.bodyVelocities.take b.bodyPositions.length)
     (b.bodyIDs.take b.bodyPositions.length)
     b.bodyPositions (b.bodyVelocities.take b.bodyPositions.length),
   Event.h2d Buffer.bodies_pos,
   Event.h2d Buffer.bodies_vel,
   Event.h2d Buffer.bodies_Ppos,
   Event.h2d Buffer.bodies_Pvel,
   Event.h2d Buffer.bodies_ids]

/-- Line 486: `while(tree->exchange_particles_with_overflow_check(tree->localTree));`
`res i` is the value the call number `i` (from 0) returns, the first argument
bounds the number of iterations that are run.  The result is the list of calls
made and whether the loop was left. -/
def exchange_loop {F : Type} (res : Nat → Bool) : Nat → Nat → List (Event F) × Bool
  | 0, _ => ([], false)
  | fuel + 1, i =>
    if res i then
      (Event.exchange_particles_with_overflow_check true ::
         (exchange_loop (F := F) res fuel (i + 1)).1,
       (exchange_loop (F := F) res fuel (i + 1)).2)
    else ([Event.exchange_particles_with_overflow_check false], true)

/-- Lines 489-499: the transfers after the exchange loop. -/
def reupload_events (F : Type) : List (Event F) :=
  [Event.h2d Buffer.bodies_pos,
   Event.h2d Buffer.bodies_vel,
   Event.h2d Buffer.bodies_ids,
   Event.h2d Buffer.bodies_acc0,
   Event.h2d Buffer.bodies_acc1,
   Event.h2d Buffer.bodies_time,
   Event.copy Buffer.bodies_Ppos Buffer.bodies_pos,
   Event.copy Buffer.bodies_Pvel Buffer.bodies_vel]

/-- Lines 506-517 (build without `USE_OPENGL`). -/
def construction_events (F : Type) : List (Event F) :=
  [Event.sort_bodies, Event.build, Event.allocateTreePropMemory,
   Event.compute_properties, Event.iterate]

/-- Function `main` from line 390 on, as the run it produces.  `procId` and
`nProcs` are what `mpiGetRank` and `mpiGetNProcs` return (`tree->nProcs` is the
same number), `recvPos`, `recvVel`, `recvIds` what `ICRecv` delivers, `res` the
results of the successive exchange calls, `fuel` the number of iterations of
the exchange loop that are followed. -/
def main_run {F : Type} (setup : InputSetup F) (procId nProcs : Nat)
    (recvPos recvVel : List (real4 F)) (recvIds : List Int)
    (res : Nat → Bool) (fuel : Nat) : Run F :=
  match (initial_bodies setup procId nProcs recvPos recvVel recvIds).2 with
  | none =>
    { trace := Event.set_context ::
        (initial_bodies setup procId nProcs recvPos recvVel recvIds).1,
      status := Status.ended_in_reader }
  | some b =>
    let pre := Event.set_context ::
      ((initial_bodies setup procId nProcs recvPos recvVel recvIds).1 ++
        setup_events nProcs b)
    if nProcs > 1 then
      if (exchange_loop (F := F) res fuel 0).2 then
        { trace := pre ++ (exchange_loop res fuel 0).1 ++ reupload_events F ++
            construction_events F,
          status := Status.finished }
      else
        { trace := pre ++ (exchange_loop res fuel 0).1, status := Status.exchanging }
    else
      { trace := pre ++ construction_events F, status := Status.finished }

/-- Function `main` (lines 260-531): the settings are taken from the command
line (`none`: usage text and exit), the engine is constructed with
`octreeArgs` (`none`: the cast of line 359 is not defined), and the run
follows. -/
def main {F : Type} (atoi : String → Int) (atof : String → ℚ) (argv : List String)
    (setup : InputSetup F) (procId nProcs : Nat)
    (recvPos recvVel : List (real4 F)) (recvIds : List Int)
    (res : Nat → Bool) (fuel : Nat) : Option (OctreeArgs × Run F) :=
  match parseArgs atoi atof argv with
  | none => none
  | some s =>
    match octreeArgs s with
    | none => none
    | some a =>
      some (a, main_run setup procId nProcs recvPos recvVel recvIds res fuel)

/-! ## Specification vocabulary -/

/-- A particle as the readers push it: position, velocity and id. -/
structure Particle (F : Type) where
  positions : real4 F
  velocity : real4 F
  id : Int
deriving DecidableEq, Repr

/-- The particle a tipsy record is turned into (lines 203-211 / 216-224). -/
def tipsy_particle.toParticle {F : Type} (r : tipsy_particle F) : Particle F :=
  { positions := r.positions, velocity := r.velocity, id := r.phi }

/-- The `ICSend` call that sends `items` to rank `dest`. -/
def batchCall {F : Type} (dest : Nat) (items : List (Particle F)) : ICSendCall F :=
  { destination := dest,
    bodyPositions := items.map Particle.positions,
    bodyVelocities := items.map Particle.velocity,
    bodiesIDs := items.map Particle.id,
    count := toInt32 items.length }

/-- The loop tail `pushAndSend` run over a list of particles. -/
def pushAll {F : Type} (perProc procs : Nat) (items : List (Particle F)) (st : ReadState F) :
    ReadState F :=
  items.foldl (fun st it => pushAndSend perProc procs st it.positions it.velocity it.id) st

/-- The reader state in which `c` batches of `q` particles of `L` were sent and
the rest of `L` is buffered. -/
def batchedState {F : Type} (q c : Nat) (L : List (Particle F)) : ReadState F :=
  { bodyPositions := (L.drop (c * q)).map Particle.positions,
    bodyVelocities := (L.drop (c * q)).map Particle.velocity,
    bodiesIDs := (L.drop (c * q)).map Particle.id,
    particleCount := L.length,
    procCntr := c + 1,
    sent := (List.range c).map (fun k => batchCall (k + 1) ((L.drop (k * q)).take q)) }

/-- Lines 99-100: the position a dumbp line is read into. -/
def dumbp_line.positions {F : Type} (l : dumbp_line F) : real4 F :=
  { x := l.x, y := l.y, z := l.z, w := l.mass }

/-- The particle that `dumbp_body` pushes when the variables are `v` and
`particleCount` is `c`. -/
def dumbp_pushed {F : Type} (INDSOFT : Bool) (sqrt_eps2 : F) (v : DumbpVars F) (c : Nat) :
    Particle F :=
  { positions := v.positions,
    velocity := if INDSOFT then v.velocity else { v.velocity with w := sqrt_eps2 },
    id := if INDSOFT then v.idummy else (c : Int) }

/-- The variables after `dumbp_body`. -/
def dumbp_vars_after {F : Type} (INDSOFT : Bool) (sqrt_eps2 : F) (v : DumbpVars F) (c : Nat) :
    DumbpVars F :=
  { idummy := (dumbp_pushed INDSOFT sqrt_eps2 v c).id,
    positions := v.positions,
    velocity := (dumbp_pushed INDSOFT sqrt_eps2 v c).velocity }

/-- The particles the dumbp loop pushes, in order: one per line, then one more
from the iteration whose extraction fails. -/
def dumbp_particles {F : Type} (INDSOFT : Bool) (sqrt_eps2 : F) :
    List (dumbp_line F) → DumbpVars F → Nat → List (Particle F)
  | [], v, c => [dumbp_pushed INDSOFT sqrt_eps2 v c]
  | l :: rest, v, c =>
    dumbp_pushed INDSOFT sqrt_eps2 (v.extract INDSOFT l) c ::
      dumbp_particles INDSOFT sqrt_eps2 rest
        (dumbp_vars_after INDSOFT sqrt_eps2 (v.extract INDSOFT l) c) (c + 1)

/-- The events of the construction phase (lines 506-517). -/
def Event.inConstruction {F : Type} : Event F → Bool
  | .sort_bodies => true
  | .build => true
  | .allocateTreePropMemory => true
  | .compute_properties => true
  | .iterate => true
  | _ => false

/-- The calls into the domain decomposition and the particle exchange:
`ICSend`, `ICRecv`, `createDistribution` and
`exchange_particles_with_overflow_check`. -/
def Event.isMigration {F : Type} : Event F → Bool
  | .ICSend _ => true
  | .ICRecv _ => true
  | .createDistribution _ _ => true
  | .exchange_particles_with_overflow_check _ => true
  | _ => false

/-- The calls of `exchange_particles_with_overflow_check`. -/
def Event.isExchange {F : Type} : Event F → Bool
  | .exchange_particles_with_overflow_check _ => true
  | _ => false

/-- Number of calls of `exchange_particles_with_overflow_check` in a trace. -/
def exchangeCalls {F : Type} (t : List (Event F)) : Nat := t.countP Event.isExchange

/-! ## Sample inputs -/

/-- A tipsy record with position `(n, 0, 0)`, unit mass and id `n`. -/
def sampleRecord (n : Nat) : tipsy_particle Nat :=
  { mass := 1, pos0 := n, pos1 := 0, pos2 := 0, vel0 := 0, vel1 := 0, vel2 := 0,
    eps := 0, phi := (n : Int) }

/-- A tipsy file whose header announces `N` bodies, all dark, and that holds the
records `0 .. k-1`. -/
def sampleTipsy (N : Int) (k : Nat) : TipsyFile Nat :=
  { h := { nbodies := N, ndark := N, nstar := 0, nsph := 0 },
    records := (List.range k).map sampleRecord }

/-- A dumbp line with id `n`, unit mass and position `(n, 0, 0)`. -/
def sampleLine (n : Nat) : dumbp_line Nat :=
  { id := (n : Int), mass := 1, x := n, y := 0, z := 0, vx := 0, vy := 0, vz := 0, soft := 0 }

/-- A dumbp file with estimated count `NTotal` that holds the lines `0 .. k-1`. -/
def sampleDumbp (NTotal : Int) (k : Nat) : DumbpFile Nat :=
  { NTotal := NTotal, NFirst := 0, NSecond := 0, NThird := 0,
    lines := (List.range k).map sampleLine }

/-- Reader variables that are all zero. -/
def sampleVars : DumbpVars Nat :=
  { idummy := 0, positions := { x := 0, y := 0, z := 0, w := 0 },
    velocity := { x := 0, y := 0, z := 0, w := 0 } }

/-- A command line that gives all thirteen arguments. -/
def sampleArgv : List String :=
  ["bonsai", "model.tipsy", "gpuLog.log", "0", "0.0625", "1000", "0.05", "0.75",
   "snapshot_", "-1", "-1", "-0.5", "0", "2"]

/-! ## The batching loop -/

theorem pushAll_snoc {F : Type} (perProc procs : Nat) (l : List (Particle F)) (a : Particle F)
    (st : ReadState F) :
    pushAll perProc procs (l ++ [a]) st
      = pushAndSend perProc procs (pushAll perProc procs l st) a.positions a.velocity a.id := by
  simp [pushAll, List.foldl_append]

theorem pushAll_cons {F : Type} (perProc procs : Nat) (l : List (Particle F)) (a : Particle F)
    (st : ReadState F) :
    pushAll perProc procs (a :: l) st
      = pushAll perProc procs l (pushAndSend perProc procs st a.positions a.velocity a.id) := by
  simp [pushAll]

theorem slice_snoc {α : Type} (l : List α) (a : α) (k q : Nat) (h : k * q + q ≤ l.length) :
    ((l ++ [a]).drop (k * q)).take q = (l.drop (k * q)).take q := by
  rw [List.drop_append_of_le_length (by omega)]
  rw [List.take_append_of_le_length (by simp; omega)]

theorem sent_snoc {F : Type} (q c : Nat) (l : List (Particle F)) (a : Particle F)
    (hle : c * q ≤ l.length) :
    (List.range c).map (fun k => batchCall (k + 1) ((l.drop (k * q)).take q))
      = (List.range c).map (fun k => batchCall (k + 1) (((l ++ [a]).drop (k * q)).take q)) := by
  apply List.map_congr_left
  intro k hk
  rw [List.mem_range] at hk
  have h1 : k * q + q ≤ c * q := by
    have := Nat.mul_le_mul_right q (Nat.succ_le_of_lt hk)
    simpa [Nat.succ_mul] using this
  rw [slice_snoc l a k q (by omega)]

/-- Invariant of the batching loop, started from the empty state, after the
particles `L` have been pushed; `perProc + 1` is the batch size. -/
theorem pushAll_invariant {F : Type} (perProc procs : Nat) (hP : 1 ≤ procs)
    (L : List (Particle F)) :
    ∃ c, c + 1 ≤ procs ∧ c * (perProc + 1) ≤ L.length ∧
      (c + 1 < procs → L.length < c * (perProc + 1) + (perProc + 1)) ∧
      pushAll perProc procs L (ReadState.start F) = batchedState (perProc + 1) c L := by
  induction L using List.reverseRecOn with
  | nil =>
    exact ⟨0, by omega, by simp, by intro _; simp, by simp [pushAll, ReadState.start, batchedState]⟩
  | append_singleton l a ih =>
    obtain ⟨c, hc, hle, hlt, hst⟩ := ih
    have hdrop : (l ++ [a]).drop (c * (perProc + 1)) = l.drop (c * (perProc + 1)) ++ [a] :=
      List.drop_append_of_le_length hle
    rw [pushAll_snoc, hst]
    by_cases hsend : l.length - c * (perProc + 1) + 1 > perProc ∧ c + 1 ≠ procs
    · -- the batch is full and a rank is left: it is sent
      have hlen : l.length + 1 = (c + 1) * (perProc + 1) := by
        have h2 := hlt (by omega)
        have h3 := hsend.1
        rw [Nat.succ_mul]; omega
      have hfull : ((l ++ [a]).drop (c * (perProc + 1))).take (perProc + 1)
          = l.drop (c * (perProc + 1)) ++ [a] := by
        rw [hdrop]; apply List.take_of_length_le
        simp only [List.length_append, List.length_drop, List.length_singleton]
        rw [Nat.succ_mul] at hlen; omega
      have hnil : (l ++ [a]).drop ((c + 1) * (perProc + 1)) = [] :=
        List.drop_of_length_le (by simp; omega)
      refine ⟨c + 1, by omega, by simp; omega, ?_, ?_⟩
      · intro _; simp; omega
      · simp only [pushAndSend, batchedState, List.length_append, List.length_map,
          List.length_drop, List.length_singleton, hsend, and_self, if_true, hnil,
          List.map_nil, List.range_succ, List.map_append, List.map_cons, hfull,
          ← sent_snoc (perProc + 1) c l a hle]
        simp [batchCall, hsend.2]
    · -- the particle stays in the buffer
      refine ⟨c, hc, by simp; omega, ?_, ?_⟩
      · intro hcp
        have h3 : ¬ (l.length - c * (perProc + 1) + 1 > perProc) := by
          intro h; exact hsend ⟨h, by omega⟩
        simp; omega
      · simp only [pushAndSend, batchedState, List.length_append, List.length_map,
          List.length_drop, List.length_singleton, hsend, if_false, hdrop,
          List.map_append, List.map_cons, List.map_nil,
          ← sent_snoc (perProc + 1) c l a hle]

/-- Once `procCntr` equals `procs` nothing more is sent. -/
theorem pushAndSend_last_rank {F : Type} (perProc procs : Nat) (st : ReadState F)
    (p v : real4 F) (i : Int) (h : st.procCntr = procs) :
    (pushAndSend perProc procs st p v i).procCntr = procs ∧
    (pushAndSend perProc procs st p v i).sent = st.sent := by
  simp [pushAndSend, h]

/-- The three vectors grow together. -/
theorem pushAndSend_lengths {F : Type} (perProc procs : Nat) (st : ReadState F)
    (p v : real4 F) (i : Int)
    (h : st.bodyVelocities.length = st.bodyPositions.length ∧
         st.bodiesIDs.length = st.bodyPositions.length) :
    (pushAndSend perProc procs st p v i).bodyVelocities.length
        = (pushAndSend perProc procs st p v i).bodyPositions.length ∧
    (pushAndSend perProc procs st p v i).bodiesIDs.length
        = (pushAndSend perProc procs st p v i).bodyPositions.length := by
  simp only [pushAndSend]
  split <;> simp [h.1, h.2]

/-- Consecutive slices of length `q` followed by the rest give back the list. -/
theorem slices_flatten {α : Type} (L : List α) (q c : Nat) :
    ((List.range c).map (fun k => (L.drop (k * q)).take q)).flatten ++ L.drop (c * q) = L := by
  induction c with
  | zero => simp
  | succ c ih =>
    rw [List.range_succ, List.map_append, List.flatten_append]
    simp only [List.map_cons, List.map_nil, List.flatten_cons, List.flatten_nil,
      List.append_nil, List.append_assoc]
    have h : (c + 1) * q = c * q + q := Nat.succ_mul c q
    rw [h, ← List.drop_drop, List.take_append_drop]
    exact ih

/-- The value of `perProc` for a non-negative count: the quotient less one, and
`2^32 - 1` when the quotient is zero. -/
theorem perProcOf_natCast (N procs : Nat) (hN : N < 2147483648) :
    perProcOf (N : Int) procs + 1 = if N / procs = 0 then 4294967296 else N / procs := by
  have hq : N / procs ≤ N := Nat.div_le_self N procs
  have h1 : Int.tdiv (N : Int) (procs : Int) = ((N / procs : Nat) : Int) :=
    (Int.ofNat_tdiv N procs).symm
  unfold perProcOf toUInt32 uintDecr
  rw [h1]
  generalize N / procs = m at hq
  split <;> omega

/-- With all announced records present, the tipsy loop pushes the next `n`
records of the stream, whatever the record variables held. -/
theorem read_tipsy_loop_eq {F : Type} (NFirst : Int) (perProc procs : Nat) (n : Nat) :
    ∀ (i : Nat) (stream : List (tipsy_particle F)) (d s : tipsy_particle F) (st : ReadState F),
      n ≤ stream.length →
      read_tipsy_loop NFirst perProc procs n i stream d s st
        = pushAll perProc procs ((stream.take n).map tipsy_particle.toParticle) st := by
  induction n with
  | zero => intro i stream d s st _; simp [read_tipsy_loop, pushAll]
  | succ n ih =>
    intro i stream d s st h
    cases stream with
    | nil => simp at h
    | cons r rest =>
      have hr : n ≤ rest.length := by simpa using h
      simp only [read_tipsy_loop, readRecord, List.tail_cons, List.take_succ_cons,
        List.map_cons, pushAll_cons]
      split
      · rw [ih (i + 1) rest r s _ hr]; rfl
      · rw [ih (i + 1) rest d r _ hr]; rfl

/-! ## The tipsy reader: distribution of the records -/

/-- When the count is at least the number of processes, the batching loop ends
with `procs - 1` batches of `N / procs` particles sent. -/
theorem pushAll_full {F : Type} (procs N : Nat) (hint : N < 2147483648) (hP : 1 ≤ procs)
    (hPN : procs ≤ N) (L : List (Particle F)) (hL : L.length = N) :
    pushAll (perProcOf (N : Int) procs) procs L (ReadState.start F)
      = batchedState (N / procs) (procs - 1) L := by
  have hq : 0 < N / procs := Nat.div_pos hPN hP
  have hpp : perProcOf (N : Int) procs + 1 = N / procs := by
    rw [perProcOf_natCast N procs hint, if_neg (by omega)]
  obtain ⟨c, hc, _, hlt, hst⟩ := pushAll_invariant (perProcOf (N : Int) procs) procs hP L
  rw [hpp] at hlt hst
  have hcp : c = procs - 1 := by
    by_contra hne
    have h1 : L.length < c * (N / procs) + N / procs := hlt (by omega)
    have h2 : (c + 1) * (N / procs) ≤ (procs - 1) * (N / procs) :=
      Nat.mul_le_mul_right _ (by omega)
    have h3 : (procs - 1) * (N / procs) ≤ procs * (N / procs) :=
      Nat.mul_le_mul_right _ (by omega)
    have h4 : procs * (N / procs) ≤ N := Nat.mul_div_le N procs
    rw [Nat.succ_mul] at h2
    omega
  rw [hst, hcp]

theorem take_slice {α : Type} (l : List α) (N a q : Nat) (h : a + q ≤ N) :
    ((l.take N).drop a).take q = (l.drop a).take q := by
  rw [List.drop_take, List.take_take, Nat.min_eq_left (by omega)]

/-- The state in which `read_tipsy_file_parallel` leaves its loop. -/
theorem read_tipsy_state {F : Type} (f : TipsyFile F) (procs N : Nat) (d0 s0 : tipsy_particle F)
    (hN : f.h.nbodies = (N : Int)) (hint : N < 2147483648) (hP : 1 ≤ procs)
    (hPN : procs ≤ N) (hlen : N ≤ f.records.length) :
    read_tipsy_loop f.h.ndark (perProcOf f.h.nbodies procs) procs f.h.nbodies.toNat 0
        f.records d0 s0 (ReadState.start F)
      = batchedState (N / procs) (procs - 1)
          ((f.records.take N).map tipsy_particle.toParticle) := by
  rw [hN, Int.toNat_ofNat, read_tipsy_loop_eq _ _ _ _ _ _ _ _ _ hlen]
  exact pushAll_full procs N hint hP hPN _ (by simp; omega)

/-- With fewer announced bodies than processes the tipsy reader sends nothing:
`perProc` is `2^32 - 1`. -/
theorem read_tipsy_small_dataset {F : Type} (f : TipsyFile F) (procs N : Nat)
    (d0 s0 : tipsy_particle F)
    (hN : f.h.nbodies = (N : Int)) (hint : N < 2147483648) (hNP : N < procs)
    (hlen : N ≤ f.records.length) :
    (read_tipsy_file_parallel (some f) procs d0 s0).sent = [] := by
  have hq : N / procs = 0 := Nat.div_eq_of_lt hNP
  have hpp : perProcOf (N : Int) procs + 1 = 4294967296 := by
    rw [perProcOf_natCast N procs hint, if_pos hq]
  obtain ⟨c, _, hle, _, hst⟩ := pushAll_invariant (perProcOf (N : Int) procs) procs
    (by omega) ((f.records.take N).map tipsy_particle.toParticle)
  rw [hpp] at hle hst
  have hc0 : c = 0 := by
    by_contra hne
    have h1 : 1 * 4294967296 ≤ c * 4294967296 := Nat.mul_le_mul_right _ (by omega)
    simp only [List.length_map, List.length_take] at hle
    omega
  subst hc0
  simp only [read_tipsy_file_parallel, hN, Int.toNat_ofNat,
    read_tipsy_loop_eq _ _ _ _ _ _ _ _ _ hlen, hst]
  rfl

/-! ## The dumbp reader -/

theorem pushAndSend_particleCount {F : Type} (perProc procs : Nat) (st : ReadState F)
    (p v : real4 F) (i : Int) :
    (pushAndSend perProc procs st p v i).particleCount = st.particleCount + 1 := by
  simp only [pushAndSend]
  split <;> rfl

theorem dumbp_body_eq {F : Type} (INDSOFT : Bool) (sqrt_eps2 : F) (perProc procs : Nat)
    (v : DumbpVars F) (st : ReadState F) :
    dumbp_body INDSOFT sqrt_eps2 perProc procs v st
      = (dumbp_vars_after INDSOFT sqrt_eps2 v st.particleCount,
         pushAndSend perProc procs st
           (dumbp_pushed INDSOFT sqrt_eps2 v st.particleCount).positions
           (dumbp_pushed INDSOFT sqrt_eps2 v st.particleCount).velocity
           (dumbp_pushed INDSOFT sqrt_eps2 v st.particleCount).id) := rfl

/-- The dumbp loop pushes `dumbp_particles`. -/
theorem read_dumbp_loop_eq {F : Type} (INDSOFT : Bool) (sqrt_eps2 : F) (perProc procs : Nat)
    (lines : List (dumbp_line F)) :
    ∀ (v : DumbpVars F) (st : ReadState F),
      read_dumbp_loop INDSOFT sqrt_eps2 perProc procs lines v st
        = pushAll perProc procs
            (dumbp_particles INDSOFT sqrt_eps2 lines v st.particleCount) st := by
  induction lines with
  | nil => intro v st; simp [read_dumbp_loop, dumbp_particles, dumbp_body_eq, pushAll]
  | cons l rest ih =>
    intro v st
    simp only [read_dumbp_loop, dumbp_particles, dumbp_body_eq, pushAll_cons]
    rw [ih, pushAndSend_particleCount]

theorem dumbp_particles_length {F : Type} (INDSOFT : Bool) (sqrt_eps2 : F)
    (lines : List (dumbp_line F)) :
    ∀ (v : DumbpVars F) (c : Nat),
      (dumbp_particles INDSOFT sqrt_eps2 lines v c).length = lines.length + 1 := by
  induction lines with
  | nil => intro v c; simp [dumbp_particles]
  | cons l rest ih => intro v c; simp [dumbp_particles, ih]

/-- The positions pushed by the dumbp loop are those of the lines, followed by
one more. -/
theorem dumbp_particles_positions {F : Type} (INDSOFT : Bool) (sqrt_eps2 : F)
    (lines : List (dumbp_line F)) :
    ∀ (v : DumbpVars F) (c : Nat),
      ∃ extra, (dumbp_particles INDSOFT sqrt_eps2 lines v c).map Particle.positions
        = lines.map dumbp_line.positions ++ [extra] := by
  induction lines with
  | nil => intro v c; exact ⟨v.positions, by simp [dumbp_particles, dumbp_pushed]⟩
  | cons l rest ih =>
    intro v c
    obtain ⟨extra, h⟩ := ih (dumbp_vars_after INDSOFT sqrt_eps2 (v.extract INDSOFT l) c) (c + 1)
    refine ⟨extra, ?_⟩
    simp only [dumbp_particles, List.map_cons, h, List.cons_append]
    rfl

/-- With the estimated count equal to the number `n >= 1` of lines, the dumbp
loop ends in a batched state whose buffer is not empty. -/
theorem read_dumbp_state {F : Type} (INDSOFT : Bool) (sqrt_eps2 : F) (procs n : Nat)
    (lines : List (dumbp_line F)) (v0 : DumbpVars F)
    (hP : 1 ≤ procs) (hn : 1 ≤ n) (hlines : lines.length = n) (hint : n + 1 < 2147483648) :
    ∃ q c, c * q < n + 1 ∧
      read_dumbp_loop INDSOFT sqrt_eps2 (perProcOf (n : Int) procs) procs lines v0
          (ReadState.start F)
        = batchedState q c (dumbp_particles INDSOFT sqrt_eps2 lines v0 0) := by
  have hL : (dumbp_particles INDSOFT sqrt_eps2 lines v0 0).length = n + 1 := by
    rw [dumbp_particles_length, hlines]
  obtain ⟨c, hc, hle, _, hst⟩ := pushAll_invariant (perProcOf (n : Int) procs) procs hP
    (dumbp_particles INDSOFT sqrt_eps2 lines v0 0)
  refine ⟨perProcOf (n : Int) procs + 1, c, ?_, ?_⟩
  · rw [hL] at hle
    have hpp := perProcOf_natCast n procs (by omega)
    by_cases hq : n / procs = 0
    · -- fewer particles than processes: `perProc` wrapped round, nothing is sent
      rw [if_pos hq] at hpp
      rw [hpp] at hle ⊢
      have hc0 : c = 0 := by
        by_contra hne
        have : 1 * 4294967296 ≤ c * 4294967296 := Nat.mul_le_mul_right _ (by omega)
        omega
      subst hc0; omega
    · rw [if_neg hq] at hpp
      rw [hpp] at hle ⊢
      have h1 : c * (n / procs) ≤ (procs - 1) * (n / procs) :=
        Nat.mul_le_mul_right _ (by omega)
      have h5 : (procs - 1) * (n / procs) = procs * (n / procs) - 1 * (n / procs) :=
        Nat.sub_mul procs 1 (n / procs)
      have h6 : 1 * (n / procs) ≤ procs * (n / procs) := Nat.mul_le_mul_right _ hP
      have h4 : procs * (n / procs) ≤ n := Nat.mul_div_le n procs
      rw [Nat.one_mul] at h5 h6
      omega
  · have := read_dumbp_loop_eq INDSOFT sqrt_eps2 (perProcOf (n : Int) procs) procs lines v0
      (ReadState.start F)
    rw [this]; exact hst

/-- In the dumbp loop the three vectors grow together. -/
theorem read_dumbp_loop_lengths {F : Type} (INDSOFT : Bool) (sqrt_eps2 : F)
    (perProc procs : Nat) (lines : List (dumbp_line F)) :
    ∀ (v : DumbpVars F) (st : ReadState F),
      (st.bodyVelocities.length = st.bodyPositions.length ∧
        st.bodiesIDs.length = st.bodyPositions.length) →
      ((read_dumbp_loop INDSOFT sqrt_eps2 perProc procs lines v st).bodyVelocities.length
          = (read_dumbp_loop INDSOFT sqrt_eps2 perProc procs lines v st).bodyPositions.length ∧
        (read_dumbp_loop INDSOFT sqrt_eps2 perProc procs lines v st).bodiesIDs.length
          = (read_dumbp_loop INDSOFT sqrt_eps2 perProc procs lines v st).bodyPositions.length) := by
  induction lines with
  | nil =>
    intro v st h
    simp only [read_dumbp_loop, dumbp_body_eq]
    exact pushAndSend_lengths perProc procs st _ _ _ h
  | cons l rest ih =>
    intro v st h
    simp only [read_dumbp_loop, dumbp_body_eq]
    exact ih _ _ (pushAndSend_lengths perProc procs st _ _ _ h)

/-- Whenever `read_dumbp_file_parallel` returns, the velocity vector and the id
vector are one element longer than the position vector. -/
theorem read_dumbp_lengths {F : Type} (INDSOFT : Bool) (sqrt_eps2 : F)
    (file : Option (DumbpFile F)) (procs : Nat) (v0 : DumbpVars F)
    (NFirst0 NSecond0 NThird0 : Int) (b : Bodies F)
    (h : (read_dumbp_file_parallel INDSOFT sqrt_eps2 file procs v0
            NFirst0 NSecond0 NThird0).ret = some b) :
    b.bodyVelocities.length = b.bodyPositions.length + 1 ∧
    b.bodyIDs.length = b.bodyPositions.length + 1 := by
  cases file with
  | none => simp [read_dumbp_file_parallel] at h
  | some f =>
    have hl := read_dumbp_loop_lengths INDSOFT sqrt_eps2 (perProcOf f.NTotal procs) procs
      f.lines v0 (ReadState.start F) ⟨rfl, rfl⟩
    simp only [read_dumbp_file_parallel] at h
    split at h
    · simp at h
    · rename_i hne
      simp only [Option.some.injEq] at h
      rw [← h]
      simp only [List.length_take, hl.1, hl.2]
      omega

/-! ## The run of `main` -/

/-- The exchange loop makes `k + 1` calls and is left when the call number `k`
is the first to return `false`. -/
theorem exchange_loop_first_false {F : Type} (res : Nat → Bool) (k : Nat)
    (hk : ∀ i, i < k → res i = true) (hkf : res k = false) :
    ∀ (fuel i : Nat), i ≤ k → k - i < fuel →
      exchange_loop (F := F) res fuel i
        = (List.replicate (k - i) (Event.exchange_particles_with_overflow_check true)
            ++ [Event.exchange_particles_with_overflow_check false], true) := by
  intro fuel
  induction fuel with
  | zero => intro i _ h; omega
  | succ fuel ih =>
    intro i hi hf
    by_cases hik : i = k
    · subst hik; simp [exchange_loop, hkf]
    · have hlt : i < k := by omega
      have h1 := ih (i + 1) (by omega) (by omega)
      have h2 : k - i = (k - (i + 1)) + 1 := by omega
      simp only [exchange_loop, hk i hlt, if_true, h1]
      rw [h2, List.replicate_succ]; rfl

/-- While every call returns `true` the exchange loop goes on. -/
theorem exchange_loop_all_true {F : Type} :
    ∀ (fuel i : Nat),
      exchange_loop (F := F) (fun _ => true) fuel i
        = (List.replicate fuel (Event.exchange_particles_with_overflow_check true), false) := by
  intro fuel
  induction fuel with
  | zero => intro i; rfl
  | succ fuel ih => intro i; simp [exchange_loop, ih, List.replicate_succ]

/-- The two shapes of the exchange loop: left after the first `false`, or still
running with every call so far `true`. -/
theorem exchange_loop_shape {F : Type} (res : Nat → Bool) :
    ∀ (fuel i : Nat),
      (∃ k, exchange_loop (F := F) res fuel i
            = (List.replicate k (Event.exchange_particles_with_overflow_check true)
                ++ [Event.exchange_particles_with_overflow_check false], true) ∧
          k < fuel ∧ res (i + k) = false ∧ ∀ j, j < k → res (i + j) = true) ∨
      (exchange_loop (F := F) res fuel i
          = (List.replicate fuel (Event.exchange_particles_with_overflow_check true), false) ∧
        ∀ j, j < fuel → res (i + j) = true) := by
  intro fuel
  induction fuel with
  | zero => intro i; right; exact ⟨rfl, by intro j hj; omega⟩
  | succ fuel ih =>
    intro i
    by_cases hr : res i = true
    · rcases ih (i + 1) with ⟨k, hk, hkf, hfalse, htrue⟩ | ⟨hk, htrue⟩
      · left
        refine ⟨k + 1, ?_, by omega, ?_, ?_⟩
        · simp only [exchange_loop, hr, if_true, hk, List.replicate_succ]; rfl
        · rw [← hfalse]; congr 1; omega
        · intro j hj
          cases j with
          | zero => simpa using hr
          | succ j => rw [← htrue j (by omega)]; congr 1; omega
      · right
        refine ⟨?_, ?_⟩
        · simp only [exchange_loop, hr, if_true, hk, List.replicate_succ]
        · intro j hj
          cases j with
          | zero => simpa using hr
          | succ j => rw [← htrue j (by omega)]; congr 1; omega
    · left
      refine ⟨0, ?_, by omega, by simpa using hr, by intro j hj; omega⟩
      simp [exchange_loop, hr]

/-- The events of the reader phase are sends (rank 0) or one receive. -/
theorem initial_bodies_events {F : Type} (setup : InputSetup F) (procId nProcs : Nat)
    (recvPos recvVel : List (real4 F)) (recvIds : List Int) (e : Event F)
    (he : e ∈ (initial_bodies setup procId nProcs recvPos recvVel recvIds).1) :
    (∃ c, e = Event.ICSend c) ∨ e = Event.ICRecv 0 := by
  unfold initial_bodies at he
  split at he
  · simp only [List.mem_map] at he
    obtain ⟨c, _, hc⟩ := he
    exact Or.inl ⟨c, hc.symm⟩
  · simp at he; exact Or.inr he

/-- A list that ends in the construction events, split at an event that does not
occur before them, is split inside the construction events. -/
theorem split_in_suffix {α : Type} (A C t1 t2 : List α) (e : α) (hA : e ∉ A)
    (h : A ++ C = t1 ++ e :: t2) : ∃ c1, t1 = A ++ c1 ∧ C = c1 ++ e :: t2 := by
  rcases List.append_eq_append_iff.mp h with ⟨a', h1, h2⟩ | ⟨c', h1, h2⟩
  · exact ⟨a', h1, h2⟩
  · cases c' with
    | nil => exact ⟨[], by simpa using h1.symm, by simpa using h2.symm⟩
    | cons x c' =>
      simp at h2
      exact absurd (by rw [h1, h2.1]; simp) hA

theorem initial_bodies_not_construction {F : Type} (setup : InputSetup F) (procId nProcs : Nat)
    (recvPos recvVel : List (real4 F)) (recvIds : List Int) (e : Event F)
    (he : e ∈ (initial_bodies setup procId nProcs recvPos recvVel recvIds).1) :
    e.inConstruction = false := by
  rcases initial_bodies_events setup procId nProcs recvPos recvVel recvIds e he with ⟨c, rfl⟩ | rfl
  <;> rfl

theorem setup_events_not_construction {F : Type} (nProcs : Nat) (b : Bodies F) (e : Event F)
    (he : e ∈ setup_events nProcs b) : e.inConstruction = false := by
  unfold setup_events at he
  split at he <;> simp at he <;> rcases he with h | h | h | h | h | h | h | h | h | h | h | h
    <;> first | (subst h; rfl) | (rcases h with h | h <;> subst h <;> rfl)

theorem exchange_loop_events {F : Type} (res : Nat → Bool) :
    ∀ (fuel i : Nat) (e : Event F), e ∈ (exchange_loop res fuel i).1 →
      ∃ r, e = Event.exchange_particles_with_overflow_check r := by
  intro fuel
  induction fuel with
  | zero => intro i e he; simp [exchange_loop] at he
  | succ fuel ih =>
    intro i e he
    by_cases hr : res i = true
    · simp only [exchange_loop, hr, if_true, List.mem_cons] at he
      rcases he with h | h
      · exact ⟨true, h⟩
      · exact ih (i + 1) e h
    · have hr2 : res i = false := by simpa using hr
      simp only [exchange_loop, hr2, Bool.false_eq_true, if_false, List.mem_singleton] at he
      exact ⟨false, he⟩

theorem reupload_events_not_construction {F : Type} (e : Event F)
    (he : e ∈ reupload_events F) : e.inConstruction = false := by
  simp [reupload_events] at he
  rcases he with h | h | h | h | h | h | h | h <;> subst h <;> rfl

/-- What stands before an event of the construction phase. -/
theorem construction_events_split {F : Type} (c1 t2 : List (Event F)) (e : Event F)
    (h : construction_events F = c1 ++ e :: t2) :
    (e = Event.sort_bodies ∧ c1 = []) ∨
    (e = Event.build ∧ c1 = [Event.sort_bodies]) ∨
    (e = Event.allocateTreePropMemory ∧ c1 = [Event.sort_bodies, Event.build]) ∨
    (e = Event.compute_properties ∧
      c1 = [Event.sort_bodies, Event.build, Event.allocateTreePropMemory]) ∨
    (e = Event.iterate ∧
      c1 = [Event.sort_bodies, Event.build, Event.allocateTreePropMemory,
            Event.compute_properties]) := by
  unfold construction_events at h
  rcases c1 with _ | ⟨x1, _ | ⟨x2, _ | ⟨x3, _ | ⟨x4, _ | ⟨x5, c1⟩⟩⟩⟩⟩ <;>
    simp at h <;> simp [h]

/-- The three ways a run of `main` can stand: ended in the reader, finished, or
inside the exchange loop. -/
theorem main_run_cases {F : Type} (setup : InputSetup F) (procId nProcs : Nat)
    (recvPos recvVel : List (real4 F)) (recvIds : List Int) (res : Nat → Bool) (fuel : Nat) :
    ((initial_bodies setup procId nProcs recvPos recvVel recvIds).2 = none ∧
      main_run setup procId nProcs recvPos recvVel recvIds res fuel
        = { trace := Event.set_context ::
              (initial_bodies setup procId nProcs recvPos recvVel recvIds).1,
            status := Status.ended_in_reader }) ∨
    (∃ b, (initial_bodies setup procId nProcs recvPos recvVel recvIds).2 = some b ∧
      ((¬ nProcs > 1 ∧
        main_run setup procId nProcs recvPos recvVel recvIds res fuel
          = { trace := Event.set_context ::
                ((initial_bodies setup procId nProcs recvPos recvVel recvIds).1 ++
                  setup_events nProcs b) ++ construction_events F,
              status := Status.finished }) ∨
       (nProcs > 1 ∧ ∃ k, k < fuel ∧ res k = false ∧ (∀ j, j < k → res j = true) ∧
        main_run setup procId nProcs recvPos recvVel recvIds res fuel
          = { trace := Event.set_context ::
                ((initial_bodies setup procId nProcs recvPos recvVel recvIds).1 ++
                  setup_events nProcs b) ++
                (List.replicate k (Event.exchange_particles_with_overflow_check true)
                  ++ [Event.exchange_particles_with_overflow_check false]) ++
                reupload_events F ++ construction_events F,
              status := Status.finished }) ∨
       (nProcs > 1 ∧ (∀ j, j < fuel → res j = true) ∧
        main_run setup procId nProcs recvPos recvVel recvIds res fuel
          = { trace := Event.set_context ::
                ((initial_bodies setup procId nProcs recvPos recvVel recvIds).1 ++
                  setup_events nProcs b) ++
                List.replicate fuel (Event.exchange_particles_with_overflow_check true),
              status := Status.exchanging }))) := by
  cases hb : (initial_bodies setup procId nProcs recvPos recvVel recvIds).2 with
  | none => left; exact ⟨rfl, by simp [main_run, hb]⟩
  | some b =>
    right
    refine ⟨b, rfl, ?_⟩
    by_cases hP : nProcs > 1
    · right
      rcases exchange_loop_shape (F := F) res fuel 0 with ⟨k, hk, hkf, hfalse, htrue⟩ | ⟨hk, htrue⟩
      · left
        refine ⟨hP, k, hkf, by simpa using hfalse, ?_, ?_⟩
        · intro j hj; simpa using htrue j hj
        · simp [main_run, hb, hP, hk]
      · right
        refine ⟨hP, ?_, ?_⟩
        · intro j hj; simpa using htrue j hj
        · simp [main_run, hb, hP, hk]
    · left
      exact ⟨hP, by simp [main_run, hb, hP]⟩

/-- No construction event occurs in the part of a run before the construction
phase. -/
theorem earlier_phases_not_construction {F : Type} (setup : InputSetup F) (procId nProcs : Nat)
    (recvPos recvVel : List (real4 F)) (recvIds : List Int) (b : Bodies F)
    (X : List (Event F)) (hX : ∀ e, e ∈ X → e.inConstruction = false) (e : Event F)
    (he : e ∈ Event.set_context ::
        ((initial_bodies setup procId nProcs recvPos recvVel recvIds).1 ++
          setup_events nProcs b) ++ X) :
    e.inConstruction = false := by
  simp only [List.cons_append, List.mem_cons, List.mem_append] at he
  rcases he with h | (h | h) | h
  · subst h; rfl
  · exact initial_bodies_not_construction _ _ _ _ _ _ e h
  · exact setup_events_not_construction _ _ e h
  · exact hX e h

/-- In every run of `main`, an event of the construction phase has before it the
whole of the earlier phases and the construction events that precede it. -/
theorem main_run_split {F : Type} (setup : InputSetup F) (procId nProcs : Nat)
    (recvPos recvVel : List (real4 F)) (recvIds : List Int) (res : Nat → Bool) (fuel : Nat)
    (t1 t2 : List (Event F)) (e : Event F) (he : e.inConstruction = true)
    (h : (main_run setup procId nProcs recvPos recvVel recvIds res fuel).trace
          = t1 ++ e :: t2) :
    ∃ A c1, t1 = A ++ c1 ∧ construction_events F = c1 ++ e :: t2 ∧
      (main_run setup procId nProcs recvPos recvVel recvIds res fuel).status
        = Status.finished ∧
      Event.createORB ∈ A ∧ Event.h2d Buffer.bodies_ids ∈ A ∧
      (nProcs > 1 →
        Event.exchange_particles_with_overflow_check false ∈ A ∧
        ∀ x, x ∈ reupload_events F → x ∈ A) := by
  have hmem : e ∈ (main_run setup procId nProcs recvPos recvVel recvIds res fuel).trace := by
    rw [h]; simp
  rcases main_run_cases setup procId nProcs recvPos recvVel recvIds res fuel with
    ⟨_, hrun⟩ | ⟨b, _, ⟨hP, hrun⟩ | ⟨hP, k, _, _, _, hrun⟩ | ⟨hP, _, hrun⟩⟩
  · -- ended in the reader: no construction event at all
    rw [hrun] at hmem
    simp only [List.mem_cons] at hmem
    rcases hmem with h1 | h1
    · subst h1; simp [Event.inConstruction] at he
    · have := initial_bodies_not_construction _ _ _ _ _ _ e h1
      rw [he] at this; simp at this
  · rw [hrun] at h
    have hA : e ∉ Event.set_context ::
        ((initial_bodies setup procId nProcs recvPos recvVel recvIds).1 ++
          setup_events nProcs b) ++ [] := by
      intro hin
      have := earlier_phases_not_construction setup procId nProcs recvPos recvVel recvIds b []
        (by simp) e hin
      rw [he] at this; simp at this
    simp only [List.append_nil] at hA
    obtain ⟨c1, hc1, hc⟩ := split_in_suffix _ _ t1 t2 e hA h
    refine ⟨_, c1, hc1, hc, by rw [hrun], ?_, ?_, ?_⟩
    · simp [setup_events]
    · simp [setup_events]
    · intro h; exact absurd h hP
  · rw [hrun] at h
    have hA : e ∉ Event.set_context ::
        ((initial_bodies setup procId nProcs recvPos recvVel recvIds).1 ++
          setup_events nProcs b) ++
        ((List.replicate k (Event.exchange_particles_with_overflow_check true)
          ++ [Event.exchange_particles_with_overflow_check false]) ++ reupload_events F) := by
      intro hin
      have := earlier_phases_not_construction setup procId nProcs recvPos recvVel recvIds b _
        (by
          intro x hx
          simp only [List.mem_append, List.mem_replicate, List.mem_singleton] at hx
          rcases hx with (⟨_, hx⟩ | hx) | hx
          · subst hx; rfl
          · subst hx; rfl
          · exact reupload_events_not_construction x hx) e hin
      rw [he] at this; simp at this
    rw [List.append_assoc _ _ (reupload_events F)] at h
    obtain ⟨c1, hc1, hc⟩ := split_in_suffix _ _ t1 t2 e hA h
    refine ⟨_, c1, hc1, hc, by rw [hrun], ?_, ?_, ?_⟩
    · simp [setup_events]
    · simp [setup_events]
    · intro _
      refine ⟨by simp, ?_⟩
      intro x hx; simp [hx]
  · -- still exchanging: no construction event at all
    rw [hrun] at hmem
    have := earlier_phases_not_construction setup procId nProcs recvPos recvVel recvIds b _
      (by
        intro x hx
        simp only [List.mem_replicate] at hx
        obtain ⟨_, hx⟩ := hx
        subst hx; rfl) e hmem
    rw [he] at this; simp at this

/-! ## One process -/

theorem read_tipsy_loop_last_rank {F : Type} (NFirst : Int) (perProc procs : Nat) (n : Nat) :
    ∀ (i : Nat) (stream : List (tipsy_particle F)) (d s : tipsy_particle F) (st : ReadState F),
      st.procCntr = procs →
      (read_tipsy_loop NFirst perProc procs n i stream d s st).sent = st.sent := by
  induction n with
  | zero => intro i stream d s st _; rfl
  | succ n ih =>
    intro i stream d s st h
    simp only [read_tipsy_loop]
    split
    · rw [ih _ _ _ _ _ (pushAndSend_last_rank perProc procs st _ _ _ h).1]
      exact (pushAndSend_last_rank perProc procs st _ _ _ h).2
    · rw [ih _ _ _ _ _ (pushAndSend_last_rank perProc procs st _ _ _ h).1]
      exact (pushAndSend_last_rank perProc procs st _ _ _ h).2

theorem read_tipsy_loop_lengths {F : Type} (NFirst : Int) (perProc procs : Nat) (n : Nat) :
    ∀ (i : Nat) (stream : List (tipsy_particle F)) (d s : tipsy_particle F) (st : ReadState F),
      (st.bodyVelocities.length = st.bodyPositions.length ∧
        st.bodiesIDs.length = st.bodyPositions.length) →
      ((read_tipsy_loop NFirst perProc procs n i stream d s st).bodyVelocities.length
          = (read_tipsy_loop NFirst perProc procs n i stream d s st).bodyPositions.length ∧
        (read_tipsy_loop NFirst perProc procs n i stream d s st).bodiesIDs.length
          = (read_tipsy_loop NFirst perProc procs n i stream d s st).bodyPositions.length) := by
  induction n with
  | zero => intro i stream d s st h; exact h
  | succ n ih =>
    intro i stream d s st h
    simp only [read_tipsy_loop]
    split
    · exact ih _ _ _ _ _ (pushAndSend_lengths perProc procs st _ _ _ h)
    · exact ih _ _ _ _ _ (pushAndSend_lengths perProc procs st _ _ _ h)

theorem read_dumbp_loop_last_rank {F : Type} (INDSOFT : Bool) (sqrt_eps2 : F)
    (perProc procs : Nat) (lines : List (dumbp_line F)) :
    ∀ (v : DumbpVars F) (st : ReadState F), st.procCntr = procs →
      (read_dumbp_loop INDSOFT sqrt_eps2 perProc procs lines v st).sent = st.sent := by
  induction lines with
  | nil =>
    intro v st h
    simp only [read_dumbp_loop, dumbp_body_eq]
    exact (pushAndSend_last_rank perProc procs st _ _ _ h).2
  | cons l rest ih =>
    intro v st h
    simp only [read_dumbp_loop, dumbp_body_eq]
    rw [ih _ _ (pushAndSend_last_rank perProc procs st _ _ _ h).1]
    exact (pushAndSend_last_rank perProc procs st _ _ _ h).2

/-- With one process neither reader calls `ICSend`. -/
theorem readers_single_process {F : Type} (setup : InputSetup F)
    (recvPos recvVel : List (real4 F)) (recvIds : List Int) :
    (initial_bodies setup 0 1 recvPos recvVel recvIds).1 = [] := by
  cases setup with
  | tipsy file d0 s0 =>
    cases file with
    | none => rfl
    | some f =>
      have h := read_tipsy_loop_last_rank f.h.ndark (perProcOf f.h.nbodies 1) 1
        f.h.nbodies.toNat 0 f.records d0 s0 (ReadState.start F) rfl
      simp only [initial_bodies, if_true, read_tipsy_file_parallel, List.map_eq_nil_iff]
      exact h
  | dumbp INDSOFT sqrt_eps2 file v0 =>
    cases file with
    | none => rfl
    | some f =>
      have h := read_dumbp_loop_last_rank INDSOFT sqrt_eps2 (perProcOf f.NTotal 1) 1 f.lines v0
        (ReadState.start F) rfl
      simp only [initial_bodies, if_true, read_dumbp_file_parallel, List.map_eq_nil_iff]
      split <;> exact h

/-- With process count 1 no run of `main` contains a call of `ICSend`, `ICRecv`,
`createDistribution` or `exchange_particles_with_overflow_check`; the position
array loaded into the particle store is the one the reader returned, and with
the tipsy reader so are the velocity and id arrays. -/
theorem single_process_events {F : Type} (setup : InputSetup F)
    (recvPos recvVel : List (real4 F)) (recvIds : List Int) (res : Nat → Bool) (fuel : Nat) :
    (∀ e, e ∈ (main_run setup 0 1 recvPos recvVel recvIds res fuel).trace →
      e.isMigration = false) ∧
    (∀ b, (initial_bodies setup 0 1 recvPos recvVel recvIds).2 = some b →
      Event.store b.bodyPositions (b.bodyVelocities.take b.bodyPositions.length)
          (b.bodyIDs.take b.bodyPositions.length)
          b.bodyPositions (b.bodyVelocities.take b.bodyPositions.length)
        ∈ (main_run setup 0 1 recvPos recvVel recvIds res fuel).trace) ∧
    (∀ file d0 s0 b, setup = InputSetup.tipsy file d0 s0 →
      (read_tipsy_file_parallel file 1 d0 s0).ret = some b →
      Event.store b.bodyPositions b.bodyVelocities b.bodyIDs b.bodyPositions b.bodyVelocities
        ∈ (main_run setup 0 1 recvPos recvVel recvIds res fuel).trace) := by
  have hsent := readers_single_process setup recvPos recvVel recvIds
  have hstore : ∀ b, (initial_bodies setup 0 1 recvPos recvVel recvIds).2 = some b →
      Event.store b.bodyPositions (b.bodyVelocities.take b.bodyPositions.length)
          (b.bodyIDs.take b.bodyPositions.length)
          b.bodyPositions (b.bodyVelocities.take b.bodyPositions.length)
        ∈ (main_run setup 0 1 recvPos recvVel recvIds res fuel).trace := by
    intro b hb
    simp [main_run, hb, hsent, setup_events]
  refine ⟨?_, hstore, ?_⟩
  · intro e he
    cases hb : (initial_bodies setup 0 1 recvPos recvVel recvIds).2 with
    | none =>
      simp [main_run, hb, hsent] at he
      subst he; rfl
    | some b =>
      simp [main_run, hb, hsent, setup_events, construction_events] at he
      rcases he with h | h | h | h | h | h | h | h | h | h | h | h | h | h | h | h | h | h
        <;> subst h <;> rfl
  · intro file d0 s0 b hsetup hret
    subst hsetup
    have hb : (initial_bodies (InputSetup.tipsy file d0 s0) 0 1 recvPos recvVel recvIds).2
        = some b := by
      simp [initial_bodies, hret]
    have h := hstore b hb
    cases file with
    | none => simp [read_tipsy_file_parallel] at hret
    | some f =>
      simp only [read_tipsy_file_parallel, Option.some.injEq] at hret
      have hl := read_tipsy_loop_lengths f.h.ndark (perProcOf f.h.nbodies 1) 1 f.h.nbodies.toNat
        0 f.records d0 s0 (ReadState.start F) ⟨rfl, rfl⟩
      have hv : b.bodyVelocities.take b.bodyPositions.length = b.bodyVelocities := by
        apply List.take_of_length_le; rw [← hret]; simp [hl.1]
      have hi : b.bodyIDs.take b.bodyPositions.length = b.bodyIDs := by
        apply List.take_of_length_le; rw [← hret]; simp [hl.2]
      rw [hv, hi] at h
      exact h

/-- Whatever a reader returns on rank 0, the velocity and id vectors are at
least as long as the position vector. -/
theorem reader_vectors_cover {F : Type} (setup : InputSetup F) (nProcs : Nat)
    (recvPos recvVel : List (real4 F)) (recvIds : List Int) (b : Bodies F)
    (hb : (initial_bodies setup 0 nProcs recvPos recvVel recvIds).2 = some b) :
    b.bodyPositions.length ≤ b.bodyVelocities.length ∧
    b.bodyPositions.length ≤ b.bodyIDs.length := by
  cases setup with
  | tipsy file d0 s0 =>
    cases file with
    | none => simp [initial_bodies, read_tipsy_file_parallel] at hb
    | some f =>
      have hl := read_tipsy_loop_lengths f.h.ndark (perProcOf f.h.nbodies nProcs) nProcs
        f.h.nbodies.toNat 0 f.records d0 s0 (ReadState.start F) ⟨rfl, rfl⟩
      simp only [initial_bodies, if_true, read_tipsy_file_parallel, Option.some.injEq] at hb
      rw [← hb]
      simp [hl.1, hl.2]
  | dumbp INDSOFT sqrt_eps2 file v0 =>
    have hb2 : (read_dumbp_file_parallel INDSOFT sqrt_eps2 file nProcs v0 0 0 0).ret = some b := by
      simpa [initial_bodies] using hb
    have := read_dumbp_lengths INDSOFT sqrt_eps2 file nProcs v0 0 0 0 b hb2
    omega

/-! ## Claims -/

/-- C1.  In `read_tipsy_file_parallel`, for a header body count `N` and a
process count `procs` with `N >= procs >= 1` (and the `N` announced records in
the file), writing `q = N / procs`: the batches passed to `ICSend` go to ranks
`1, 2, ..., procs - 1` in that order, the batch for rank `k + 1` holds exactly
the `q` records with indices `k*q .. k*q + q - 1` in file order (positions,
velocities and ids of the same records), rank 0 retains exactly the records
with indices `(procs-1)*q .. N-1` in file order, the batches followed by what
rank 0 retains are the `N` records, each once, and the reported count is `N`. -/
theorem read_tipsy_distribution {F : Type} (f : TipsyFile F) (procs N : Nat)
    (d0 s0 : tipsy_particle F)
    (hN : f.h.nbodies = (N : Int)) (hint : N < 2147483648) (hP : 1 ≤ procs)
    (hPN : procs ≤ N) (hlen : N ≤ f.records.length) :
    (read_tipsy_file_parallel (some f) procs d0 s0).sent
      = (List.range (procs - 1)).map (fun k =>
          { destination := k + 1,
            bodyPositions :=
              ((f.records.drop (k * (N / procs))).take (N / procs)).map tipsy_particle.positions,
            bodyVelocities :=
              ((f.records.drop (k * (N / procs))).take (N / procs)).map tipsy_particle.velocity,
            bodiesIDs :=
              ((f.records.drop (k * (N / procs))).take (N / procs)).map tipsy_particle.phi,
            count := ((N / procs : Nat) : Int) }) ∧
    (read_tipsy_file_parallel (some f) procs d0 s0).ret
      = some
          { bodyPositions :=
              ((f.records.drop ((procs - 1) * (N / procs))).take
                (N - (procs - 1) * (N / procs))).map tipsy_particle.positions,
            bodyVelocities :=
              ((f.records.drop ((procs - 1) * (N / procs))).take
                (N - (procs - 1) * (N / procs))).map tipsy_particle.velocity,
            bodyIDs :=
              ((f.records.drop ((procs - 1) * (N / procs))).take
                (N - (procs - 1) * (N / procs))).map tipsy_particle.phi,
            NTotal := (N : Int),
            NFirst := f.h.ndark, NSecond := f.h.nstar, NThird := f.h.nsph } ∧
    (∀ b, (read_tipsy_file_parallel (some f) procs d0 s0).ret = some b →
      ((read_tipsy_file_parallel (some f) procs d0 s0).sent.map
          ICSendCall.bodyPositions).flatten ++ b.bodyPositions
        = (f.records.take N).map tipsy_particle.positions ∧
      ((read_tipsy_file_parallel (some f) procs d0 s0).sent.map
          ICSendCall.bodyVelocities).flatten ++ b.bodyVelocities
        = (f.records.take N).map tipsy_particle.velocity ∧
      ((read_tipsy_file_parallel (some f) procs d0 s0).sent.map
          ICSendCall.bodiesIDs).flatten ++ b.bodyIDs
        = (f.records.take N).map tipsy_particle.phi) := by
  have hst := read_tipsy_state f procs N d0 s0 hN hint hP hPN hlen
  have hq : 0 < N / procs := Nat.div_pos hPN hP
  have hqN : N / procs ≤ N := Nat.div_le_self N procs
  have hPq : (procs - 1) * (N / procs) + N / procs ≤ N := by
    have h4 : procs * (N / procs) ≤ N := Nat.mul_div_le N procs
    have h5 : (procs - 1) * (N / procs) = procs * (N / procs) - 1 * (N / procs) :=
      Nat.sub_mul procs 1 (N / procs)
    have h6 : 1 * (N / procs) ≤ procs * (N / procs) := Nat.mul_le_mul_right _ hP
    rw [Nat.one_mul] at h5 h6
    omega
  refine ⟨?_, ?_, ?_⟩
  · simp only [read_tipsy_file_parallel, hst, batchedState]
    apply List.map_congr_left
    intro k hk
    rw [List.mem_range] at hk
    have h1 : k * (N / procs) + N / procs ≤ (procs - 1) * (N / procs) := by
      have := Nat.mul_le_mul_right (N / procs) (Nat.succ_le_of_lt hk)
      simpa [Nat.succ_mul] using this
    have hk2 : k * (N / procs) + N / procs ≤ N := by omega
    have hlen2 : ((f.records.drop (k * (N / procs))).take (N / procs)).length = N / procs := by
      simp; omega
    simp only [batchCall, List.map_map, ← List.map_drop, ← List.map_take,
      take_slice f.records N _ _ hk2, List.length_map, hlen2]
    simp [toInt32, tipsy_particle.toParticle, Function.comp_def]
    omega
  · simp only [read_tipsy_file_parallel, hst, batchedState, List.drop_take]
    simp [tipsy_particle.toParticle, Function.comp_def, List.map_drop, List.map_take]
    exact ⟨List.drop_take .., List.drop_take .., List.drop_take .., hlen⟩
  · intro b hb
    simp only [read_tipsy_file_parallel, hst, batchedState, Option.some.injEq] at hb ⊢
    subst hb
    simp only [List.map_map, Function.comp_def, batchCall]
    refine ⟨?_, ?_, ?_⟩
    · have := slices_flatten ((f.records.take N).map tipsy_particle.positions)
        (N / procs) (procs - 1)
      simpa [List.map_drop, List.map_take, tipsy_particle.toParticle, Function.comp_def]
        using this
    · have := slices_flatten ((f.records.take N).map tipsy_particle.velocity)
        (N / procs) (procs - 1)
      simpa [List.map_drop, List.map_take, tipsy_particle.toParticle, Function.comp_def]
        using this
    · have := slices_flatten ((f.records.take N).map tipsy_particle.phi)
        (N / procs) (procs - 1)
      simpa [List.map_drop, List.map_take, tipsy_particle.toParticle, Function.comp_def]
        using this

/-- C10.  In `read_dumbp_file_parallel`, with the read loop running over `n`
lines and then once more with the values of the last line: for every process
count `procs >= 1` and every `n >= 1` such that the estimated count `NTotal`
equals `n`, the position vector is not empty when it is trimmed, the reader
returns, the reported count is `n`, the positions sent to peers followed by
the positions rank 0 retains after trimming are exactly the positions of the
`n` lines (so the extra record is in no batch), and the number of positions
sent plus the number retained is `n`. -/
theorem read_dumbp_duplicate_retained {F : Type} (INDSOFT : Bool) (sqrt_eps2 : F)
    (f : DumbpFile F) (procs n : Nat) (v0 : DumbpVars F) (NFirst0 NSecond0 NThird0 : Int)
    (hP : 1 ≤ procs) (hn : 1 ≤ n) (hlines : f.lines.length = n)
    (hNT : f.NTotal = (n : Int)) (hint : n + 1 < 2147483648) :
    (read_dumbp_loop INDSOFT sqrt_eps2 (perProcOf f.NTotal procs) procs f.lines v0
        (ReadState.start F)).bodyPositions ≠ [] ∧
    ∃ b, (read_dumbp_file_parallel INDSOFT sqrt_eps2 (some f) procs v0
            NFirst0 NSecond0 NThird0).ret = some b ∧
      b.NTotal = (n : Int) ∧
      ((read_dumbp_file_parallel INDSOFT sqrt_eps2 (some f) procs v0
            NFirst0 NSecond0 NThird0).sent.map ICSendCall.bodyPositions).flatten
          ++ b.bodyPositions
        = f.lines.map dumbp_line.positions ∧
      ((read_dumbp_file_parallel INDSOFT sqrt_eps2 (some f) procs v0
            NFirst0 NSecond0 NThird0).sent.map (fun c => c.bodyPositions.length)).sum
          + b.bodyPositions.length = n := by
  obtain ⟨q, c, hlt, hst⟩ :=
    read_dumbp_state INDSOFT sqrt_eps2 procs n f.lines v0 hP hn hlines hint
  have hL : (dumbp_particles INDSOFT sqrt_eps2 f.lines v0 0).length = n + 1 := by
    rw [dumbp_particles_length, hlines]
  obtain ⟨extra, hextra⟩ := dumbp_particles_positions INDSOFT sqrt_eps2 f.lines v0 0
  have hbuf : ((dumbp_particles INDSOFT sqrt_eps2 f.lines v0 0).drop (c * q)).map
      Particle.positions ≠ [] := by
    intro h
    have := congrArg List.length h
    simp [hL] at this
    omega
  have hall : ((List.range c).map (fun k =>
        (((dumbp_particles INDSOFT sqrt_eps2 f.lines v0 0).drop (k * q)).take q).map
          Particle.positions)).flatten
      ++ ((dumbp_particles INDSOFT sqrt_eps2 f.lines v0 0).drop (c * q)).map Particle.positions
      = f.lines.map dumbp_line.positions ++ [extra] := by
    have := slices_flatten
      ((dumbp_particles INDSOFT sqrt_eps2 f.lines v0 0).map Particle.positions) q c
    rw [hextra] at this
    rw [← hextra] at this
    simp only [← List.map_drop, ← List.map_take] at this
    rw [this, hextra]
  have hkey : ((List.range c).map (fun k =>
        (((dumbp_particles INDSOFT sqrt_eps2 f.lines v0 0).drop (k * q)).take q).map
          Particle.positions)).flatten
      ++ (((dumbp_particles INDSOFT sqrt_eps2 f.lines v0 0).drop (c * q)).map
            Particle.positions).dropLast
      = f.lines.map dumbp_line.positions := by
    rw [← List.dropLast_append_of_ne_nil _ hbuf, hall, List.dropLast_concat]
  rw [hNT]
  refine ⟨by rw [hst]; exact hbuf, ?_⟩
  have hlen0 : ¬ (((dumbp_particles INDSOFT sqrt_eps2 f.lines v0 0).drop (c * q)).map
      Particle.positions).length = 0 := by
    intro h; exact hbuf (List.length_eq_zero.mp h)
  simp only [read_dumbp_file_parallel, hNT, hst, batchedState, hlen0, if_false,
    Option.some.injEq, exists_eq_left', List.map_map, Function.comp_def, batchCall]
  refine ⟨by rw [hL]; push_cast; ring, ?_, ?_⟩
  · rw [← List.dropLast_eq_take]; exact hkey
  · rw [← List.dropLast_eq_take]
    have := congrArg List.length hkey
    simp only [List.length_append, List.length_flatten, List.map_map, Function.comp_def,
      List.length_map, hlines] at this
    simpa using this

/-- Witness for C1: five records, two processes. -/
theorem read_tipsy_distribution_witness :
    (read_tipsy_file_parallel (some (sampleTipsy 5 5)) 2 (sampleRecord 9) (sampleRecord 9)).sent
      = (List.range (2 - 1)).map (fun k =>
          { destination := k + 1,
            bodyPositions :=
              (((sampleTipsy 5 5).records.drop (k * (5 / 2))).take (5 / 2)).map
                tipsy_particle.positions,
            bodyVelocities :=
              (((sampleTipsy 5 5).records.drop (k * (5 / 2))).take (5 / 2)).map
                tipsy_particle.velocity,
            bodiesIDs :=
              (((sampleTipsy 5 5).records.drop (k * (5 / 2))).take (5 / 2)).map
                tipsy_particle.phi,
            count := ((5 / 2 : Nat) : Int) }) :=
  (read_tipsy_distribution (sampleTipsy 5 5) 2 5 (sampleRecord 9) (sampleRecord 9)
    rfl (by decide) (by decide) (by decide) (by decide)).1

/-- Witness for C10: three lines, estimated count three, two processes. -/
theorem read_dumbp_duplicate_retained_witness :
    (read_dumbp_loop false 7 (perProcOf (sampleDumbp 3 3).NTotal 2) 2 (sampleDumbp 3 3).lines
        sampleVars (ReadState.start Nat)).bodyPositions ≠ [] :=
  (read_dumbp_duplicate_retained false 7 (sampleDumbp 3 3) 2 3 sampleVars 0 0 0
    (by decide) (by decide) (by decide) rfl (by decide)).1

/-- C2 (failing input).  A tipsy file with one body, or a dumbp file with one
line, read for two processes: `perProc` is `0 - 1` on a `uint`, no batch ever
counts as full, and the reader returns without a single `ICSend`, while rank 1
has called `ICRecv(0, ...)`. -/
theorem reader_sends_nothing_to_peer :
    (read_tipsy_file_parallel (some (sampleTipsy 1 1)) 2 (sampleRecord 9) (sampleRecord 9)).sent
      = [] ∧
    (read_dumbp_file_parallel false 7 (some (sampleDumbp 1 1)) 2 sampleVars 0 0 0).sent = [] ∧
    perProcOf 1 2 = 4294967295 ∧
    Event.ICRecv 0 ∈
      (main_run (InputSetup.tipsy (some (sampleTipsy 1 1)) (sampleRecord 9) (sampleRecord 9))
        1 2 [] [] [] (fun _ => false) 1).trace := by
  decide

/-- C9 (failing input).  A dumbp file with one line read for one process: on
return the position vector holds one element, the velocity and id vectors
hold two, the second being the duplicate; the reported count is 1 and nothing
was sent. -/
theorem read_dumbp_vectors_differ :
    read_dumbp_file_parallel false 7 (some (sampleDumbp 1 1)) 1 sampleVars 0 0 0
      = { sent := [],
          ret := some { bodyPositions := [{ x := 0, y := 0, z := 0, w := 1 }],
                        bodyVelocities := [{ x := 0, y := 0, z := 0, w := 7 },
                                           { x := 0, y := 0, z := 0, w := 7 }],
                        bodyIDs := [0, 1],
                        NTotal := 1, NFirst := 0, NSecond := 0, NThird := 0 } } := by
  decide

/-- C7 (failing input).  With only the input file on the command line every
setting has its initial value.  These are the defaults of the usage text
except for the tree rebuild interval: the usage text says 2, `main` uses 5. -/
theorem defaults_of_main (atoi : String → Int) (atof : String → ℚ) :
    parseArgs atoi atof ["bonsai", "model.tipsy"]
      = some { eps := 5 / 100, theta := 75 / 100, timeStep := 1 / 16, tEnd := 1000,
               devID := 0, fileName := "model.tipsy", logFileName := "gpuLog.log",
               snapshotFile := "snapshot_", snapshotIter := -1, killDistance := -1,
               remoDistance := -1, snapShotAdd := 0, rebuild_tree_rate := 5 } ∧
    (5 : Int) ≠ usage_rebuild_tree_rate := by
  constructor
  · simp [parseArgs]
  · decide

/-- C6 (counterexample).  A removal distance of `-1/2` reaches the constructor
as `0`: the value passed is not the configured one, and it is not negative
although the configured one is. -/
theorem removal_distance_is_truncated :
    ∃ s a, parseArgs (fun _ => 0) (fun _ => -1 / 2) sampleArgv = some s ∧
      octreeArgs s = some a ∧
      s.remoDistance = -1 / 2 ∧
      a.remoDistance = 0 ∧
      (a.remoDistance : ℚ) ≠ s.remoDistance ∧
      ¬ (a.remoDistance < 0 ↔ s.remoDistance < 0) := by
  have ht : truncate (-(1 / 2)) = 0 := by unfold truncate; norm_num
  have hf : float_to_int (-(1 / 2)) = some 0 := by
    unfold float_to_int; rw [ht]; norm_num
  refine ⟨_,
    { devID := 0, theta := -(1 / 2), eps := -(1 / 2), snapshotFile := "snapshot_",
      snapshotIter := 0, timeStep := -(1 / 2), tEnd := 0, killDistance := -(1 / 2),
      remoDistance := 0, snapShotAdd := 0, rebuild_tree_rate := 0 },
    rfl, ?_, ?_⟩
  · simp only [octreeArgs, sampleArgv, List.length_cons, List.length_nil]
    norm_num [hf]
  · norm_num [sampleArgv]

/-- The truncated value is an `int` exactly when the `float` lies strictly
between `-2^31 - 1` and `2^31`. -/
theorem truncate_range (r : ℚ) :
    (-2147483648 ≤ truncate r ∧ truncate r ≤ 2147483647) ↔
      (-2147483649 < r ∧ r < 2147483648) := by
  unfold truncate
  split
  · rename_i h0
    have hfl : (0 : Int) ≤ ⌊r⌋ := Int.floor_nonneg.mpr h0
    constructor
    · rintro ⟨_, h2⟩
      refine ⟨by linarith, ?_⟩
      have h3 : ⌊r⌋ < 2147483648 := by omega
      have := Int.floor_lt.mp h3
      simpa using this
    · rintro ⟨_, h2⟩
      refine ⟨by omega, ?_⟩
      have h3 : ⌊r⌋ < 2147483648 := Int.floor_lt.mpr (by simpa using h2)
      omega
  · rename_i h0
    have h0' : r < 0 := not_le.mp h0
    have hce : ⌈r⌉ ≤ 0 := Int.ceil_le.mpr (by simpa using h0'.le)
    constructor
    · rintro ⟨h1, _⟩
      refine ⟨?_, by linarith⟩
      have h3 : (-2147483649 : Int) < ⌈r⌉ := by omega
      have := Int.lt_ceil.mp h3
      simpa using this
    · rintro ⟨h1, _⟩
      refine ⟨?_, by omega⟩
      have h3 : (-2147483649 : Int) < ⌈r⌉ := Int.lt_ceil.mpr (by simpa using h1)
      omega

/-- The truncated value is negative exactly when the `float` is at most `-1`. -/
theorem truncate_neg_iff (r : ℚ) : truncate r < 0 ↔ r ≤ -1 := by
  unfold truncate
  split
  · rename_i h0
    constructor
    · intro h1
      have : (0 : Int) ≤ ⌊r⌋ := Int.floor_nonneg.mpr h0
      omega
    · intro h1; linarith
  · constructor
    · intro h1
      have h2 : ⌈r⌉ ≤ -1 := by omega
      have := Int.ceil_le.mp h2
      simpa using this
    · intro h1
      have : ⌈r⌉ ≤ -1 := Int.ceil_le.mpr (by simpa using h1)
      omega

/-- C6 (amended).  For every configured removal distance `r` (the parsed value
of argument 11, `-1` when it is absent) that lies strictly between `-2^31 - 1`
and `2^31`, so that the cast to `int` is defined, the value `main` passes to
the engine constructor is `r` with its fractional part dropped, an `int`, and
`r` itself when `r` is a whole number; the kill distance is passed as it is;
and the value passed is negative if and only if `r <= -1`.  Outside that range
the cast of line 359 is not defined. -/
theorem removal_distance_passed (atoi : String → Int) (atof : String → ℚ)
    (argv : List String) (s : Settings) (h : parseArgs atoi atof argv = some s) :
    s.remoDistance = (if argv.length > 11 then atof (argv.getD 11 "") else -1) ∧
    (-2147483649 < s.remoDistance → s.remoDistance < 2147483648 →
      ∃ a, octreeArgs s = some a ∧
        a.remoDistance = truncate s.remoDistance ∧
        (-2147483648 ≤ a.remoDistance ∧ a.remoDistance ≤ 2147483647) ∧
        (∀ z : Int, s.remoDistance = (z : ℚ) → a.remoDistance = z) ∧
        a.killDistance = s.killDistance ∧
        (a.remoDistance < 0 ↔ s.remoDistance ≤ -1)) ∧
    (¬ (-2147483649 < s.remoDistance ∧ s.remoDistance < 2147483648) →
      octreeArgs s = none) := by
  have hr : s.remoDistance = (if argv.length > 11 then atof (argv.getD 11 "") else -1) := by
    unfold parseArgs at h
    split at h
    · simp at h
    · simp only [Option.some.injEq] at h
      rw [← h]
  refine ⟨hr, ?_, ?_⟩
  · intro h1 h2
    have hrange := (truncate_range s.remoDistance).mpr ⟨h1, h2⟩
    have hf : float_to_int s.remoDistance = some (truncate s.remoDistance) := by
      unfold float_to_int; rw [if_pos hrange]
    have ha : octreeArgs s
        = some { devID := s.devID, theta := s.theta, eps := s.eps,
                 snapshotFile := s.snapshotFile, snapshotIter := s.snapshotIter,
                 timeStep := s.timeStep, tEnd := s.tEnd,
                 killDistance := s.killDistance,
                 remoDistance := truncate s.remoDistance,
                 snapShotAdd := s.snapShotAdd,
                 rebuild_tree_rate := s.rebuild_tree_rate } := by
      simp only [octreeArgs, hf]
    refine ⟨_, ha, rfl, hrange, ?_, rfl, ?_⟩
    · intro z hz
      show truncate s.remoDistance = z
      rw [hz]; unfold truncate
      split <;> simp
    · exact truncate_neg_iff s.remoDistance
  · intro hout
    have hrange : ¬ (-2147483648 ≤ truncate s.remoDistance ∧
        truncate s.remoDistance ≤ 2147483647) := by
      intro hc; exact hout ((truncate_range s.remoDistance).mp hc)
    have hf : float_to_int s.remoDistance = none := by
      unfold float_to_int; rw [if_neg hrange]
    simp only [octreeArgs, hf]

/-- Witness for C6 (amended): the sample command line with `-3/2` as every
parsed number. -/
theorem removal_distance_passed_witness :
    ∃ s, parseArgs (fun _ => 0) (fun _ => -3 / 2) sampleArgv = some s ∧
      ∃ a, octreeArgs s = some a ∧
        a.remoDistance = truncate s.remoDistance ∧
        (-2147483648 ≤ a.remoDistance ∧ a.remoDistance ≤ 2147483647) ∧
        (∀ z : Int, s.remoDistance = (z : ℚ) → a.remoDistance = z) ∧
        a.killDistance = s.killDistance ∧
        (a.remoDistance < 0 ↔ s.remoDistance ≤ -1) :=
  ⟨_, rfl,
    (removal_distance_passed (fun _ => 0) (fun _ => -3 / 2) sampleArgv _ rfl).2.1
      (by norm_num [sampleArgv]) (by norm_num [sampleArgv])⟩

/-- C5 (counterexample).  A tipsy file whose header announces two bodies but
that holds one record, read on rank 0 of two processes: the one record is sent
to rank 1, rank 0 keeps a second copy of it, and the run goes on through
`build`, `compute_properties` and `iterate`. -/
theorem malformed_tipsy_is_not_rejected :
    (read_tipsy_file_parallel (some (sampleTipsy 2 1)) 2 (sampleRecord 9) (sampleRecord 9))
      = { sent := [{ destination := 1,
                     bodyPositions := [{ x := 0, y := 0, z := 0, w := 1 }],
                     bodyVelocities := [{ x := 0, y := 0, z := 0, w := 0 }],
                     bodiesIDs := [0], count := 1 }],
          ret := some { bodyPositions := [{ x := 0, y := 0, z := 0, w := 1 }],
                        bodyVelocities := [{ x := 0, y := 0, z := 0, w := 0 }],
                        bodyIDs := [0],
                        NTotal := 2, NFirst := 2, NSecond := 0, NThird := 0 } } ∧
    (main_run (InputSetup.tipsy (some (sampleTipsy 2 1)) (sampleRecord 9) (sampleRecord 9))
        0 2 [] [] [] (fun _ => false) 1).status = Status.finished ∧
    Event.build ∈
      (main_run (InputSetup.tipsy (some (sampleTipsy 2 1)) (sampleRecord 9) (sampleRecord 9))
        0 2 [] [] [] (fun _ => false) 1).trace ∧
    Event.compute_properties ∈
      (main_run (InputSetup.tipsy (some (sampleTipsy 2 1)) (sampleRecord 9) (sampleRecord 9))
        0 2 [] [] [] (fun _ => false) 1).trace ∧
    Event.iterate ∈
      (main_run (InputSetup.tipsy (some (sampleTipsy 2 1)) (sampleRecord 9) (sampleRecord 9))
        0 2 [] [] [] (fun _ => false) 1).trace := by
  decide

/-- C5 (amended).  For every initial-state input that cannot be opened, with
either reader, the run on rank 0 ends inside the reader: the only event is
`set_context`, so no particle batch is sent to a peer and none of `build`,
`compute_properties` or `iterate` is reached. -/
theorem unopened_input_ends_run {F : Type} (nProcs : Nat) (recvPos recvVel : List (real4 F))
    (recvIds : List Int) (res : Nat → Bool) (fuel : Nat) (d0 s0 : tipsy_particle F)
    (INDSOFT : Bool) (sqrt_eps2 : F) (v0 : DumbpVars F) :
    main_run (InputSetup.tipsy none d0 s0) 0 nProcs recvPos recvVel recvIds res fuel
      = { trace := [Event.set_context], status := Status.ended_in_reader } ∧
    main_run (InputSetup.dumbp INDSOFT sqrt_eps2 none v0) 0 nProcs recvPos recvVel recvIds
        res fuel
      = { trace := [Event.set_context], status := Status.ended_in_reader } ∧
    (read_tipsy_file_parallel none nProcs d0 s0).sent = [] ∧
    (read_dumbp_file_parallel INDSOFT sqrt_eps2 none nProcs v0 0 0 0).sent = [] := by
  refine ⟨?_, ?_, rfl, rfl⟩ <;>
    simp [main_run, initial_bodies, read_tipsy_file_parallel, read_dumbp_file_parallel]

/-- C3 (counterexample).  No bound limits the number of exchange calls of the
initial distribution: while the exchange returns `true`, `main` calls it
again, and the run neither proceeds nor ends. -/
theorem exchange_retries_without_limit :
    (¬ ∃ B : Nat, ∀ (res : Nat → Bool) (fuel : Nat),
        exchangeCalls
          (main_run (InputSetup.tipsy (some (sampleTipsy 2 2)) (sampleRecord 9) (sampleRecord 9))
            0 2 [] [] [] res fuel).trace ≤ B) ∧
    (∀ fuel : Nat,
      (main_run (InputSetup.tipsy (some (sampleTipsy 2 2)) (sampleRecord 9) (sampleRecord 9))
          0 2 [] [] [] (fun _ => true) fuel).status = Status.exchanging ∧
      exchangeCalls
        (main_run (InputSetup.tipsy (some (sampleTipsy 2 2)) (sampleRecord 9) (sampleRecord 9))
          0 2 [] [] [] (fun _ => true) fuel).trace = fuel) := by
  have hb : ∃ b, (initial_bodies
      (InputSetup.tipsy (some (sampleTipsy 2 2)) (sampleRecord 9) (sampleRecord 9))
      0 2 [] [] []).2 = some b := ⟨_, rfl⟩
  obtain ⟨b, hb⟩ := hb
  have hall : ∀ fuel : Nat,
      (main_run (InputSetup.tipsy (some (sampleTipsy 2 2)) (sampleRecord 9) (sampleRecord 9))
          0 2 [] [] [] (fun _ => true) fuel).status = Status.exchanging ∧
      exchangeCalls
        (main_run (InputSetup.tipsy (some (sampleTipsy 2 2)) (sampleRecord 9) (sampleRecord 9))
          0 2 [] [] [] (fun _ => true) fuel).trace = fuel := by
    intro fuel
    have hpre : List.countP Event.isExchange
        ((initial_bodies
          (InputSetup.tipsy (some (sampleTipsy 2 2)) (sampleRecord 9) (sampleRecord 9))
          0 2 [] [] []).1 ++ setup_events 2 b) = 0 := by
      rw [List.countP_eq_zero]
      intro e he
      rw [List.mem_append] at he
      rcases he with he | he
      · rcases initial_bodies_events _ _ _ _ _ _ e he with ⟨c, rfl⟩ | rfl <;> simp [Event.isExchange]
      · simp [setup_events] at he
        rcases he with h | h | h | h | h | h | h | h | h | h | h | h | h <;> subst h <;>
          simp [Event.isExchange]
    simp only [main_run, hb, exchange_loop_all_true, exchangeCalls]
    simp only [show (2 : Nat) > 1 by decide, if_true, Bool.false_eq_true, if_false,
      List.cons_append, List.countP_cons, List.countP_append, hpre]
    simp [Event.isExchange, List.countP_replicate]
  refine ⟨?_, hall⟩
  rintro ⟨B, hB⟩
  have h1 := hB (fun _ => true) (B + 1)
  rw [(hall (B + 1)).2] at h1
  omega

/-- C3 (amended).  In the initial particle distribution of `main` (more than
one process, reader returned) the exchange is called again after every `true`
and not after the first `false`: when the call number `k` (from 0) is the
first to return `false`, the exchange is called exactly `k + 1` times and the
run proceeds to the end. -/
theorem exchange_until_first_false {F : Type} (setup : InputSetup F) (procId nProcs : Nat)
    (recvPos recvVel : List (real4 F)) (recvIds : List Int) (res : Nat → Bool)
    (k fuel : Nat) (b : Bodies F)
    (hP : nProcs > 1)
    (hb : (initial_bodies setup procId nProcs recvPos recvVel recvIds).2 = some b)
    (hk : ∀ j, j < k → res j = true) (hkf : res k = false) (hfuel : k < fuel) :
    exchangeCalls (main_run setup procId nProcs recvPos recvVel recvIds res fuel).trace
      = k + 1 ∧
    (main_run setup procId nProcs recvPos recvVel recvIds res fuel).status
      = Status.finished := by
  have hloop := exchange_loop_first_false (F := F) res k hk hkf fuel 0 (by omega) (by omega)
  have hpre : List.countP Event.isExchange
      ((initial_bodies setup procId nProcs recvPos recvVel recvIds).1 ++ setup_events nProcs b)
        = 0 := by
    rw [List.countP_eq_zero]
    intro e he
    rw [List.mem_append] at he
    rcases he with he | he
    · rcases initial_bodies_events _ _ _ _ _ _ e he with ⟨c, rfl⟩ | rfl <;> simp [Event.isExchange]
    · simp [setup_events, hP] at he
      rcases he with h | h | h | h | h | h | h | h | h | h | h | h | h <;> subst h <;>
        simp [Event.isExchange]
  simp only [main_run, hb, hloop, exchangeCalls, hP, if_true, Nat.sub_zero]
  simp only [List.cons_append, List.countP_cons, List.countP_append, hpre]
  simp [Event.isExchange, List.countP_replicate, reupload_events, construction_events]

/-- Witness for C3 (amended): two records, two processes, the third exchange
call the first to return `false`. -/
theorem exchange_until_first_false_witness :
    exchangeCalls
      (main_run (InputSetup.tipsy (some (sampleTipsy 2 2)) (sampleRecord 9) (sampleRecord 9))
        0 2 [] [] [] (fun i => decide (i < 2)) 5).trace = 2 + 1 ∧
    (main_run (InputSetup.tipsy (some (sampleTipsy 2 2)) (sampleRecord 9) (sampleRecord 9))
        0 2 [] [] [] (fun i => decide (i < 2)) 5).status = Status.finished :=
  exchange_until_first_false
    (InputSetup.tipsy (some (sampleTipsy 2 2)) (sampleRecord 9) (sampleRecord 9))
    0 2 [] [] [] (fun i => decide (i < 2)) 2 5 _ (by decide) rfl
    (by intro j hj; simpa using hj) (by decide) (by decide)

/-- C8.  In every run of `main` (build without rendering) the engine calls
occur in the controller's order.  A run with one process whose reader returned
is: the reader phase, `createORB`, the upload of the particle arrays,
`sort_bodies`, `build`, `allocateTreePropMemory`, `compute_properties`,
`iterate`.  A run with more processes in which the exchange call number `k` is
the first to return `false` is: the reader phase, `createORB`,
`createDistribution`, the upload, the `k + 1` exchange calls, the re-upload of
pos/vel/ids/acc0/acc1/time, and the same five construction calls.  In any run,
finished or not: `iterate` is only called after `compute_properties` (and is
the last call), `compute_properties` only after `build`, and `build` only
after `createORB`, the upload and, with more than one process, after the
exchange returned `false` and its results were uploaded. -/
theorem main_engine_order {F : Type} (setup : InputSetup F) (procId nProcs : Nat)
    (recvPos recvVel : List (real4 F)) (recvIds : List Int) (res : Nat → Bool) (fuel : Nat) :
    (∀ b, (initial_bodies setup procId nProcs recvPos recvVel recvIds).2 = some b →
      ¬ nProcs > 1 →
      main_run setup procId nProcs recvPos recvVel recvIds res fuel
        = { trace := Event.set_context ::
              ((initial_bodies setup procId nProcs recvPos recvVel recvIds).1 ++
              [Event.setDataSetProperties b.NTotal b.NFirst b.NSecond b.NThird,
               Event.load_kernels,
               Event.createORB,
               Event.mpiSync,
               Event.setN (toInt32 b.bodyPositions.length),
               Event.allocateParticleMemory,
               Event.store b.bodyPositions (b.bodyVelocities.take b.bodyPositions.length)
                 (b.bodyIDs.take b.bodyPositions.length)
                 b.bodyPositions (b.bodyVelocities.take b.bodyPositions.length),
               Event.h2d Buffer.bodies_pos,
               Event.h2d Buffer.bodies_vel,
               Event.h2d Buffer.bodies_Ppos,
               Event.h2d Buffer.bodies_Pvel,
               Event.h2d Buffer.bodies_ids,
               Event.sort_bodies,
               Event.build,
               Event.allocateTreePropMemory,
               Event.compute_properties,
               Event.iterate]),
            status := Status.finished }) ∧
    (∀ b k, (initial_bodies setup procId nProcs recvPos recvVel recvIds).2 = some b →
      nProcs > 1 → (∀ j, j < k → res j = true) → res k = false → k < fuel →
      main_run setup procId nProcs recvPos recvVel recvIds res fuel
        = { trace := Event.set_context ::
              ((initial_bodies setup procId nProcs recvPos recvVel recvIds).1 ++
              [Event.setDataSetProperties b.NTotal b.NFirst b.NSecond b.NThird,
               Event.load_kernels,
               Event.createORB,
               Event.createDistribution b.bodyPositions (toInt32 b.bodyPositions.length),
               Event.mpiSync,
               Event.setN (toInt32 b.bodyPositions.length),
               Event.allocateParticleMemory,
               Event.store b.bodyPositions (b.bodyVelocities.take b.bodyPositions.length)
                 (b.bodyIDs.take b.bodyPositions.length)
                 b.bodyPositions (b.bodyVelocities.take b.bodyPositions.length),
               Event.h2d Buffer.bodies_pos,
               Event.h2d Buffer.bodies_vel,
               Event.h2d Buffer.bodies_Ppos,
               Event.h2d Buffer.bodies_Pvel,
               Event.h2d Buffer.bodies_ids] ++
              List.replicate k (Event.exchange_particles_with_overflow_check true) ++
              [Event.exchange_particles_with_overflow_check false,
               Event.h2d Buffer.bodies_pos,
               Event.h2d Buffer.bodies_vel,
               Event.h2d Buffer.bodies_ids,
               Event.h2d Buffer.bodies_acc0,
               Event.h2d Buffer.bodies_acc1,
               Event.h2d Buffer.bodies_time,
               Event.copy Buffer.bodies_Ppos Buffer.bodies_pos,
               Event.copy Buffer.bodies_Pvel Buffer.bodies_vel,
               Event.sort_bodies,
               Event.build,
               Event.allocateTreePropMemory,
               Event.compute_properties,
               Event.iterate]),
            status := Status.finished }) ∧
    (∀ t1 t2,
      (main_run setup procId nProcs recvPos recvVel recvIds res fuel).trace
        = t1 ++ Event.iterate :: t2 →
      Event.compute_properties ∈ t1 ∧ t2 = []) ∧
    (∀ t1 t2,
      (main_run setup procId nProcs recvPos recvVel recvIds res fuel).trace
        = t1 ++ Event.compute_properties :: t2 →
      Event.build ∈ t1) ∧
    (∀ t1 t2,
      (main_run setup procId nProcs recvPos recvVel recvIds res fuel).trace
        = t1 ++ Event.build :: t2 →
      Event.createORB ∈ t1 ∧ Event.h2d Buffer.bodies_ids ∈ t1 ∧ Event.sort_bodies ∈ t1 ∧
      (nProcs > 1 →
        Event.exchange_particles_with_overflow_check false ∈ t1 ∧
        ∀ x, x ∈ reupload_events F → x ∈ t1)) := by
  refine ⟨?_, ?_, ?_, ?_, ?_⟩
  · intro b hb hP
    simp [main_run, hb, hP, setup_events, construction_events]
  · intro b k hb hP hk hkf hfuel
    have hloop := exchange_loop_first_false (F := F) res k hk hkf fuel 0 (by omega) (by omega)
    simp [main_run, hb, hP, hloop, setup_events, construction_events, reupload_events]
  · intro t1 t2 h
    obtain ⟨A, c1, hc1, hc, _, _, _, _⟩ :=
      main_run_split setup procId nProcs recvPos recvVel recvIds res fuel t1 t2 Event.iterate rfl h
    rcases construction_events_split c1 t2 _ hc with
      ⟨h1, _⟩ | ⟨h1, _⟩ | ⟨h1, _⟩ | ⟨h1, _⟩ | ⟨_, h2⟩
    · cases h1
    · cases h1
    · cases h1
    · cases h1
    · subst h2
      refine ⟨by rw [hc1]; simp, ?_⟩
      simp [construction_events] at hc
      exact hc
  · intro t1 t2 h
    obtain ⟨A, c1, hc1, hc, _, _, _, _⟩ :=
      main_run_split setup procId nProcs recvPos recvVel recvIds res fuel t1 t2 Event.compute_properties rfl h
    rcases construction_events_split c1 t2 _ hc with
      ⟨h1, _⟩ | ⟨h1, _⟩ | ⟨h1, _⟩ | ⟨_, h2⟩ | ⟨h1, _⟩
    · cases h1
    · cases h1
    · cases h1
    · subst h2; rw [hc1]; simp
    · cases h1
  · intro t1 t2 h
    obtain ⟨A, c1, hc1, hc, _, horb, hup, hex⟩ :=
      main_run_split setup procId nProcs recvPos recvVel recvIds res fuel t1 t2 Event.build rfl h
    rcases construction_events_split c1 t2 _ hc with
      ⟨h1, _⟩ | ⟨_, h2⟩ | ⟨h1, _⟩ | ⟨h1, _⟩ | ⟨h1, _⟩
    · cases h1
    · subst h2
      rw [hc1]
      refine ⟨by simp [horb], by simp [hup], by simp, ?_⟩
      intro hP
      obtain ⟨h3, h4⟩ := hex hP
      refine ⟨by simp [h3], ?_⟩
      intro x hx
      simp [h4 x hx]
    · cases h1
    · cases h1
    · cases h1

/-- Witness for C8: one record, one process. -/
theorem main_engine_order_witness :
    Event.compute_properties ∈
        (main_run (InputSetup.tipsy (some (sampleTipsy 1 1)) (sampleRecord 9) (sampleRecord 9))
          0 1 [] [] [] (fun _ => false) 0).trace.dropLast ∧
      ([] : List (Event Nat)) = [] :=
  (main_engine_order
    (InputSetup.tipsy (some (sampleTipsy 1 1)) (sampleRecord 9) (sampleRecord 9))
    0 1 [] [] [] (fun _ => false) 0).2.2.1 _ [] (by decide)

/-- C4.  With process count 1 (the one process has rank 0), whatever the input,
the reader and the results of the engine, no run of `main` contains a call of
`ICSend`, `ICRecv`, `createDistribution` or
`exchange_particles_with_overflow_check`.  When the reader returns, the
particle store is loaded with the reader's position array and with as many
velocities and ids, each of them the reader's entry at the same index; with
the tipsy reader the loaded velocity and id arrays are the whole arrays the
reader returned. -/
theorem single_process_run {F : Type} (setup : InputSetup F)
    (recvPos recvVel : List (real4 F)) (recvIds : List Int) (res : Nat → Bool) (fuel : Nat) :
    (∀ c, Event.ICSend c ∉ (main_run setup 0 1 recvPos recvVel recvIds res fuel).trace) ∧
    (∀ r, Event.ICRecv r ∉ (main_run setup 0 1 recvPos recvVel recvIds res fuel).trace) ∧
    (∀ l n, Event.createDistribution l n ∉
      (main_run setup 0 1 recvPos recvVel recvIds res fuel).trace) ∧
    (∀ r, Event.exchange_particles_with_overflow_check r ∉
      (main_run setup 0 1 recvPos recvVel recvIds res fuel).trace) ∧
    (∀ b, (initial_bodies setup 0 1 recvPos recvVel recvIds).2 = some b →
      ∃ V I, Event.store b.bodyPositions V I b.bodyPositions V
            ∈ (main_run setup 0 1 recvPos recvVel recvIds res fuel).trace ∧
        V.length = b.bodyPositions.length ∧ I.length = b.bodyPositions.length ∧
        ∀ i, i < b.bodyPositions.length →
          V[i]? = b.bodyVelocities[i]? ∧ I[i]? = b.bodyIDs[i]?) ∧
    (∀ file d0 s0 b, setup = InputSetup.tipsy file d0 s0 →
      (read_tipsy_file_parallel file 1 d0 s0).ret = some b →
      Event.store b.bodyPositions b.bodyVelocities b.bodyIDs b.bodyPositions b.bodyVelocities
        ∈ (main_run setup 0 1 recvPos recvVel recvIds res fuel).trace) := by
  obtain ⟨hmig, hstore, htipsy⟩ :=
    single_process_events setup recvPos recvVel recvIds res fuel
  refine ⟨?_, ?_, ?_, ?_, ?_, htipsy⟩
  · intro c hc; have := hmig _ hc; simp [Event.isMigration] at this
  · intro r hc; have := hmig _ hc; simp [Event.isMigration] at this
  · intro l n hc; have := hmig _ hc; simp [Event.isMigration] at this
  · intro r hc; have := hmig _ hc; simp [Event.isMigration] at this
  · intro b hb
    obtain ⟨hv, hi⟩ := reader_vectors_cover setup 1 recvPos recvVel recvIds b hb
    refine ⟨_, _, hstore b hb, ?_, ?_, ?_⟩
    · rw [List.length_take]; omega
    · rw [List.length_take]; omega
    · intro i hi2
      exact ⟨List.getElem?_take_of_lt hi2, List.getElem?_take_of_lt hi2⟩

/-- Witness for C4: a dumbp file with one line, one process. -/
theorem single_process_run_witness :
    ∃ V I, Event.store [{ x := 0, y := 0, z := 0, w := 1 }] V I
              [{ x := 0, y := 0, z := 0, w := 1 }] V
          ∈ (main_run (InputSetup.dumbp false 7 (some (sampleDumbp 1 1)) sampleVars)
              0 1 [] [] [] (fun _ => false) 0).trace ∧
      V.length = 1 ∧ I.length = 1 ∧
      ∀ i, i < 1 →
        V[i]? = [({ x := 0, y := 0, z := 0, w := 7 } : real4 Nat),
                 { x := 0, y := 0, z := 0, w := 7 }][i]? ∧
        I[i]? = [(0 : Int), 1][i]? :=
  (single_process_run (InputSetup.dumbp false 7 (some (sampleDumbp 1 1)) sampleVars)
    [] [] [] (fun _ => false) 0).2.2.2.2.1
    { bodyPositions := [{ x := 0, y := 0, z := 0, w := 1 }],
      bodyVelocities := [{ x := 0, y := 0, z := 0, w := 7 },
                         { x := 0, y := 0, z := 0, w := 7 }],
      bodyIDs := [0, 1],
      NTotal := 1, NFirst := 0, NSecond := 0, NThird := 0 }
    (by decide)


end Bonsai
